import Mathlib

/-!
# Verification of the JustClimb class-management core logic

This development embeds the data model and the operations of the JustClimb
class-management application: the in-memory store behind `services/api/index.ts`,
the recurrence-rule (RRULE) text codec of `pages/Schedule.tsx`, the weekday /
frequency form handlers of `RecurringClassForm` and the schedule page, and the
recurrence expansion used by the bulk-create submission.

Rule texts are embedded as `List Char` (the character data of the JavaScript
strings); the regex searches of the source (`String.prototype.match` with
patterns such as `INTERVAL=(\d+)`) are embedded as explicit left-to-right
scanners over the character list.

The file is organised as: all definitions first, then all theorems.
-/

namespace JustClimb

/-! ## Definitions: JavaScript-style array primitives -/

/-- `Array.prototype.findIndex`: index of the first element satisfying `p`.
`none` models the `-1` result. -/
def jsFindIndex {α : Type} (p : α → Bool) : List α → Option Nat
  | [] => none
  | x :: xs => if p x then some 0 else (jsFindIndex p xs).map (· + 1)

/-! ## Definitions: the in-memory store (`services/api/index.ts`) -/

structure Student where
  id : Nat
  name : String
deriving Repr, DecidableEq

structure Coach where
  id : Nat
  name : String
deriving Repr, DecidableEq

structure ClassRec where
  id : Nat
  name : String
  coachId : Nat
  studentIds : List Nat
deriving Repr, DecidableEq

structure SchedRecord where
  id : Nat
  classId : Nat
deriving Repr, DecidableEq

structure Store where
  students : List Student
  coaches : List Coach
  classes : List ClassRec
  schedules : List SchedRecord
deriving Repr, DecidableEq

/-- `studentsApi.delete`: fail on a missing id, fail when some class still
enrolls the student, otherwise splice the record out. -/
def studentsDelete (s : Store) (i : Nat) : Bool × Store :=
  match jsFindIndex (fun st => st.id == i) s.students with
  | none => (false, s)
  | some idx =>
    if s.classes.any (fun c => c.studentIds.contains i) then (false, s)
    else (true, { s with students := s.students.eraseIdx idx })

/-- `coachesApi.delete`: fail on a missing id, fail when some class is still
assigned to the coach, otherwise splice the record out. -/
def coachesDelete (s : Store) (i : Nat) : Bool × Store :=
  match jsFindIndex (fun t => t.id == i) s.coaches with
  | none => (false, s)
  | some idx =>
    if s.classes.any (fun c => c.coachId == i) then (false, s)
    else (true, { s with coaches := s.coaches.eraseIdx idx })

/-- One step of the schedule cascade in `classesApi.delete`: find a schedule
by id and splice it out (no-op when absent). -/
def deleteScheduleById (l : List SchedRecord) (sid : Nat) : List SchedRecord :=
  match jsFindIndex (fun sc => sc.id == sid) l with
  | none => l
  | some j => l.eraseIdx j

/-- `classesApi.delete`: fail on a missing id; otherwise delete every schedule
whose `classId` matches (by the filter-then-splice-each loop of the source) and
splice the class out. -/
def classesDelete (s : Store) (cid : Nat) : Bool × Store :=
  match jsFindIndex (fun c => c.id == cid) s.classes with
  | none => (false, s)
  | some idx =>
    let schedulesToDelete := s.schedules.filter (fun sc => sc.classId == cid)
    let newSchedules :=
      schedulesToDelete.foldl (fun acc sched => deleteScheduleById acc sched.id) s.schedules
    (true, { s with schedules := newSchedules, classes := s.classes.eraseIdx idx })

/-- A small concrete store used by the witnesses. -/
def storeW : Store :=
  { students := [⟨1, "Ann"⟩, ⟨2, "Ben"⟩],
    coaches := [⟨1, "Cy"⟩],
    classes := [⟨5, "Climb", 1, [2]⟩],
    schedules := [⟨1, 5⟩, ⟨2, 6⟩] }

/-! ## Definitions: proleptic Gregorian calendar -/

/-- Leap year (proleptic Gregorian, as `Date.UTC` uses). -/
def isLeap (y : Nat) : Bool :=
  y % 4 == 0 && (y % 100 != 0 || y % 400 == 0)

def daysInMonth (y : Nat) (m : Nat) : Nat :=
  match m with
  | 1 => 31
  | 2 => if isLeap y then 29 else 28
  | 3 => 31
  | 4 => 30
  | 5 => 31
  | 6 => 30
  | 7 => 31
  | 8 => 31
  | 9 => 30
  | 10 => 31
  | 11 => 30
  | 12 => 31
  | _ => 30

/-- A UTC calendar date (month and day 1-based, as read off a JS `Date`
via `getUTCMonth() + 1` / `getUTCDate()`). -/
structure UTCDate where
  year : Nat
  month : Nat
  day : Nat
deriving Repr, DecidableEq

def ValidDate (d : UTCDate) : Prop :=
  1 ≤ d.month ∧ d.month ≤ 12 ∧ 1 ≤ d.day ∧ d.day ≤ daysInMonth d.year d.month

instance (d : UTCDate) : Decidable (ValidDate d) := by
  unfold ValidDate
  infer_instance

def nextDate (d : UTCDate) : UTCDate :=
  if d.day < daysInMonth d.year d.month then ⟨d.year, d.month, d.day + 1⟩
  else if d.month < 12 then ⟨d.year, d.month + 1, 1⟩
  else ⟨d.year + 1, 1, 1⟩

/-- Number of leap years strictly before year `y` (year 0 included). -/
def leapsBefore : Nat → Nat
  | 0 => 0
  | y + 1 => leapsBefore y + (if isLeap y then 1 else 0)

/-- Days in the months of year `y` strictly before month `m`. -/
def daysBeforeMonth (y : Nat) : Nat → Nat
  | 0 => 0
  | 1 => 0
  | m + 2 => daysBeforeMonth y (m + 1) + daysInMonth y (m + 1)

/-- Linear day index of a date (proleptic Gregorian, anchored at year 0). -/
def epochDay (d : UTCDate) : Nat :=
  365 * d.year + leapsBefore d.year + daysBeforeMonth d.year d.month + (d.day - 1)

/-- Weekday with the rrule convention `0 = Monday … 6 = Sunday`
(the weekday encoding of `RecurringClassForm`). -/
def weekdayOf (d : UTCDate) : Nat := (epochDay d + 5) % 7

/-! ## Definitions: recurrence expansion (`RecurringClassForm.handleSubmit`) -/

/-- The three frequencies offered by the recurring-class form. -/
inductive Freq
  | daily
  | weekly
  | monthly
deriving Repr, DecidableEq

/-- The structured recurrence rule handed to the third-party library:
frequency, interval, weekday set (weekly), optional month-day. -/
structure MRule where
  freq : Freq
  interval : Nat
  byweekday : List Nat
  bymonthday : Option Nat
deriving Repr, DecidableEq

/-- Modelled from the spec: the frequency / interval / weekday / month-day
constraint a candidate date must satisfy for a rule anchored at `anchor`
(the third-party `rrule` library's occurrence test is not part of this
repository's sources). Weeks are counted as consecutive 7-day blocks from
the anchor; months by calendar month index; `bymonthday` defaults to the
anchor's day-of-month for monthly rules. -/
def matchesRule (r : MRule) (anchor : UTCDate) (dt : UTCDate) : Bool :=
  let n := epochDay dt - epochDay anchor
  match r.freq with
  | .daily => n % r.interval == 0
  | .weekly => (n / 7) % r.interval == 0 && r.byweekday.contains (weekdayOf dt)
  | .monthly =>
    ((12 * dt.year + dt.month) - (12 * anchor.year + anchor.month)) % r.interval == 0
      && dt.day == r.bymonthday.getD anchor.day

/-- Modelled from the spec: day-by-day generation of candidate dates
(bounded by `fuel`), keeping those that `keep` accepts. -/
def expandAux (keep : UTCDate → Bool) : Nat → UTCDate → List UTCDate
  | 0, _ => []
  | fuel + 1, dt =>
    (if keep dt then [dt] else []) ++ expandAux keep fuel (nextDate dt)

/-- The end condition carried by a built rule: an inclusive end timestamp
(in minutes) or a maximum occurrence count. -/
inductive EndCond
  | untilTs (ts : Nat)
  | countN (n : Nat)
deriving Repr, DecidableEq

/-- Modelled from the spec: `rule.all()` — the ordered, finite list of
occurrence dates of the rule anchored at `anchor`, whose occurrence
timestamp (`epochDay · * 1440 + startMin` minutes) respects the end
condition; a COUNT rule keeps the first `n` matches. -/
def expandRule (r : MRule) (anchor : UTCDate) (startMin : Nat) (e : EndCond) :
    List UTCDate :=
  match e with
  | .untilTs ts =>
    expandAux
      (fun dt => matchesRule r anchor dt && decide (epochDay dt * 1440 + startMin ≤ ts))
      (ts / 1440 + 2 - epochDay anchor) anchor
  | .countN n =>
    (expandAux (matchesRule r anchor) (n * r.interval * 366 + 366) anchor).take n

/-- The form state read by `handleSubmit`; `none` models the falsy empty
values of the unfilled controls. -/
structure SubmitInput where
  classId : Option Nat
  startDate : Option UTCDate
  endDate : Option UTCDate
  startTime : Option Nat
  endTime : Option Nat
  frequency : Freq
  interval : Nat
  weekdays : List Nat
  count : Option Nat
deriving Repr, DecidableEq

/-- One bulk-created schedule record: class reference and start / end
timestamps in minutes (the end may precede the start when the form's end
time precedes its start time, hence `Int`). -/
structure OutSchedule where
  classId : Nat
  startTs : Nat
  endTs : Int
deriving Repr, DecidableEq

inductive SubmitResult
  | invalid
  | saved (schedules : List OutSchedule)
deriving Repr, DecidableEq

/-- The end-condition fields of the rule options built by `handleSubmit`:
`until` is always set first, then a positive `count` is added and `until`
deleted. The pair is `(count?, until?)`. -/
def buildEndOpts (count : Option Nat) (untilTs : Nat) : Option Nat × Option Nat :=
  match count with
  | some c => if 0 < c then (some c, none) else (none, some untilTs)
  | none => (none, some untilTs)

/-- `RecurringClassForm.handleSubmit`: validate the required fields, build
the rule options, expand the rule (`rule.all()` modelled from the spec) and
produce one schedule per occurrence, each spanning the base duration
`endTime - startTime`. -/
def handleSubmit (inp : SubmitInput) : SubmitResult :=
  match inp.classId, inp.startDate, inp.endDate, inp.startTime, inp.endTime with
  | some cid, some sd, some _ed, some st, some et =>
    if inp.frequency = .weekly ∧ inp.weekdays = [] then .invalid
    else
      let durMin : Int := (et : Int) - (st : Int)
      let untilTs : Nat := epochDay _ed * 1440 + 1439
      let r : MRule :=
        { freq := inp.frequency, interval := inp.interval,
          byweekday := if inp.frequency = .weekly then inp.weekdays else [],
          bymonthday := none }
      let e : EndCond :=
        match buildEndOpts inp.count untilTs with
        | (some c, _) => .countN c
        | (none, _) => .untilTs untilTs
      let occ := expandRule r sd st e
      .saved (occ.map fun dt =>
        { classId := cid, startTs := epochDay dt * 1440 + st,
          endTs := (epochDay dt * 1440 + st : Int) + durMin })
  | _, _, _, _, _ => .invalid

/-! ## Definitions: rule-text scanning (the regex searches of `Schedule.tsx`) -/

/-- A rule text: the character data of the JavaScript string. -/
abbrev RText := List Char

def str (s : String) : RText := s.data

/-- Does the pattern start at the head of the text? -/
def startsWith : RText → RText → Bool
  | [], _ => true
  | _ :: _, [] => false
  | p :: ps, c :: cs => p == c && startsWith ps cs

/-- Left-to-right regex-style search: the first position where the matcher
accepts wins; the matcher sees the whole remaining suffix. -/
def scanFor {α : Type} (m : RText → Option α) : RText → Option α
  | [] => none
  | c :: s =>
    match m (c :: s) with
    | some a => some a
    | none => scanFor m s

/-- A matcher for `KEY…`: the key must start here; `g` then examines what
follows it. -/
def keyBind {α : Type} (key : RText) (g : RText → Option α) (t : RText) :
    Option α :=
  if startsWith key t then g (t.drop key.length) else none

def isDigitC (c : Char) : Bool := '0' ≤ c && c ≤ '9'

def takeDigits (l : RText) : RText := l.takeWhile isDigitC

def digitChar : Nat → Char
  | 0 => '0'
  | 1 => '1'
  | 2 => '2'
  | 3 => '3'
  | 4 => '4'
  | 5 => '5'
  | 6 => '6'
  | 7 => '7'
  | 8 => '8'
  | _ => '9'

/-- Decimal digits of `n` (the JS template-literal rendering of a number). -/
def natDigits (n : Nat) : RText :=
  if n < 10 then [digitChar n]
  else natDigits (n / 10) ++ [digitChar (n % 10)]
decreasing_by exact Nat.div_lt_self (by omega) (by omega)

def charVal : Char → Nat
  | '0' => 0
  | '1' => 1
  | '2' => 2
  | '3' => 3
  | '4' => 4
  | '5' => 5
  | '6' => 6
  | '7' => 7
  | '8' => 8
  | '9' => 9
  | _ => 0

/-- `parseInt` on a digit string. -/
def digitsToNat (l : RText) : Nat := l.foldl (fun a c => a * 10 + charVal c) 0

/-- `s.includes(KEY)` via the scanner. -/
def containsKey (key : RText) (s : RText) : Bool :=
  (scanFor (keyBind key (fun _ => some ())) s).isSome

/-- First `KEY(\d+)` occurrence: the digits right after the key, as a
number. -/
def findKeyDigits (key : RText) (s : RText) : Option Nat :=
  scanFor (keyBind key (fun r =>
    let ds := takeDigits r
    if ds.isEmpty then none else some (digitsToNat ds))) s

/-- First `BYDAY=([^;]+)` occurrence: the non-empty run up to the next
`;`. -/
def findByday (s : RText) : Option RText :=
  scanFor (keyBind (str "BYDAY=") (fun r =>
    let v := r.takeWhile (fun c => !(c == ';'))
    if v.isEmpty then none else some v)) s

/-- The `UNTIL=(\d{8}T\d{6}Z)` capture: checks the shape and returns the
year / month / day digit groups. -/
def untilShape (r : RText) : Option (Nat × Nat × Nat) :=
  let d8 := r.take 8
  let rest := r.drop 8
  if d8.length == 8 && d8.all isDigitC then
    match rest with
    | 'T' :: r2 =>
      let d6 := r2.take 6
      let r3 := r2.drop 6
      if d6.length == 6 && d6.all isDigitC then
        match r3 with
        | 'Z' :: _ => some (digitsToNat (d8.take 4),
            digitsToNat ((d8.drop 4).take 2), digitsToNat (d8.drop 6))
        | _ => none
      else none
    | _ => none
  else none

def findUntil (s : RText) : Option (Nat × Nat × Nat) :=
  scanFor (keyBind (str "UNTIL=") untilShape) s

/-! ## Definitions: `Date.UTC` normalisation -/

/-- Day borrow/carry normalisation toward a real calendar date (bounded by
fuel; 5 steps suffice for the 0–99 day values a 2-digit token can
produce). -/
def dayNorm : Nat → Nat → Nat → Int → UTCDate
  | 0, y, m, d => ⟨y, m, d.toNat⟩
  | fuel + 1, y, m, d =>
    if d < 1 then
      let y2 := if m = 1 then y - 1 else y
      let m2 := if m = 1 then 12 else m - 1
      dayNorm fuel y2 m2 (d + daysInMonth y2 m2)
    else if (daysInMonth y m : Int) < d then
      let y2 := if m = 12 then y + 1 else y
      let m2 := if m = 12 then 1 else m + 1
      dayNorm fuel y2 m2 (d - daysInMonth y m)
    else ⟨y, m, d.toNat⟩

/-- `Date.UTC(y, m0, d)` as a calendar date: month overflow by month-index
arithmetic, day overflow by `dayNorm`. (Negative years collapse to year 0;
unreachable from the codec's four-digit year tokens.) -/
def dateUTC (y : Nat) (m0 : Int) (d : Nat) : UTCDate :=
  let M : Int := (y : Int) * 12 + m0
  let y1 : Nat := (M / 12).toNat
  let m1 : Nat := (M % 12).toNat + 1
  dayNorm 5 y1 m1 (d : Int)

/-- `parseUntilDate` of `Schedule.tsx`: if the text has an `UNTIL=` token
matching `\d{8}T\d{6}Z`, decode its UTC date; otherwise fall back to
`today`. -/
def parseUntilDate (today : UTCDate) (s : RText) : UTCDate :=
  if containsKey (str "UNTIL=") s then
    match findUntil s with
    | some (y, mo, da) => dateUTC y ((mo : Int) - 1) da
    | none => today
  else today

/-! ## Definitions: the schedule form's rule codec (`Schedule.tsx`) -/

inductive RecType
  | noneR
  | daily
  | weekly
  | monthly
  | yearly
  | custom
deriving Repr, DecidableEq

inductive EndType
  | never
  | count
  | untilD
deriving Repr, DecidableEq

/-- The recurrence-related form fields `handleOpenForm` fills in. -/
structure FormFields where
  recurrenceType : RecType
  interval : Nat
  selectedDays : List RText
  monthDay : Nat
  endType : EndType
  endCount : Nat
  endDate : UTCDate
deriving Repr, DecidableEq

/-- `'a,b'.split(',')`. -/
def splitComma : RText → List RText
  | [] => [[]]
  | c :: rest =>
    if c == ',' then [] :: splitComma rest
    else
      match splitComma rest with
      | [] => [[c]]
      | g :: gs => (c :: g) :: gs

/-- The rule decoding of `handleOpenForm` (`Schedule.tsx` lines 292–328):
recurrence type by `includes('FREQ=…')`, interval / selected days /
month-day / end condition by regex capture. `none` models the `TypeError`
the source raises when `includes` succeeds but the capturing regex fails.
`apptStartDay` and `apptEnd` are the appointment's own start day-of-month
and end date (the defaults); `today` feeds `parseUntilDate`'s fallback. -/
def decodeRRule (today : UTCDate) (apptStartDay : Nat) (apptEnd : UTCDate)
    (s : RText) : Option FormFields := do
  let recurrenceType :=
    if s.isEmpty then RecType.noneR
    else if containsKey (str "FREQ=DAILY") s then RecType.daily
    else if containsKey (str "FREQ=WEEKLY") s then RecType.weekly
    else if containsKey (str "FREQ=MONTHLY") s then RecType.monthly
    else if containsKey (str "FREQ=YEARLY") s then RecType.yearly
    else RecType.custom
  let interval := (findKeyDigits (str "INTERVAL=") s).getD 1
  let selectedDays ←
    if containsKey (str "BYDAY=") s then (findByday s).map splitComma
    else some [str "MO"]
  let monthDay ←
    if containsKey (str "BYMONTHDAY=") s then findKeyDigits (str "BYMONTHDAY=") s
    else some apptStartDay
  let endType :=
    if containsKey (str "COUNT=") s then EndType.count
    else if containsKey (str "UNTIL=") s then EndType.untilD
    else EndType.never
  let endCount ←
    if containsKey (str "COUNT=") s then findKeyDigits (str "COUNT=") s
    else some 10
  let endDate :=
    if containsKey (str "UNTIL=") s then parseUntilDate today s
    else apptEnd
  some { recurrenceType, interval, selectedDays, monthDay, endType, endCount,
         endDate }

/-- `String(n).padStart(2, '0')`. -/
def pad2 (n : Nat) : RText := if n < 10 then '0' :: natDigits n else natDigits n

def joinComma : List RText → RText
  | [] => []
  | [d] => d
  | d :: rest => d ++ ',' :: joinComma rest

/-- The UNTIL token the schedule form writes:
`getUTCFullYear() + MM + DD + 'T000000Z'`. -/
def encodeUntilToken (d : UTCDate) : RText :=
  natDigits d.year ++ pad2 d.month ++ pad2 d.day ++ str "T000000Z"

/-- The end-condition suffix the end-type radio handler appends
(`;COUNT=n` / `;UNTIL=token`, written in segments). -/
def encodeEndSuffix (f : FormFields) : RText :=
  match f.endType with
  | .never => []
  | .count => str ";" ++ (str "COUNT=" ++ natDigits f.endCount)
  | .untilD => str ";" ++ (str "UNTIL=" ++ encodeUntilToken f.endDate)

/-- The base rule text written by the daily / weekly / monthly controls of
the schedule form (`FREQ=…;INTERVAL=n[;BYDAY=…|;BYMONTHDAY=n]`, written in
segments). -/
def encodeBase (f : FormFields) : RText :=
  match f.recurrenceType with
  | .daily => str "FREQ=DAILY" ++ (str ";" ++ (str "INTERVAL=" ++ natDigits f.interval))
  | .weekly => str "FREQ=WEEKLY" ++ (str ";" ++ (str "INTERVAL=" ++ (natDigits f.interval
      ++ (str ";" ++ (str "BYDAY=" ++ joinComma f.selectedDays)))))
  | .monthly => str "FREQ=MONTHLY" ++ (str ";" ++ (str "INTERVAL=" ++ (natDigits f.interval
      ++ (str ";" ++ (str "BYMONTHDAY=" ++ natDigits f.monthDay)))))
  | _ => []

/-- Form fields re-encoded into a rule text. -/
def encodeFields (f : FormFields) : RText := encodeBase f ++ encodeEndSuffix f

def dayCodes : List RText :=
  [str "MO", str "TU", str "WE", str "TH", str "FR", str "SA", str "SU"]

/-- Canonical form fields: the shapes the schedule form's own encoders
produce. -/
def ValidFields (f : FormFields) : Prop :=
  (f.recurrenceType = .daily ∨ f.recurrenceType = .weekly ∨
    f.recurrenceType = .monthly) ∧
  1 ≤ f.interval ∧
  (f.recurrenceType = .weekly →
    f.selectedDays ≠ [] ∧ ∀ d ∈ f.selectedDays, d ∈ dayCodes) ∧
  (f.recurrenceType = .monthly → 1 ≤ f.monthDay ∧ f.monthDay ≤ 31) ∧
  (f.endType = .count → 1 ≤ f.endCount) ∧
  (f.endType = .untilD →
    1000 ≤ f.endDate.year ∧ f.endDate.year ≤ 9999 ∧ ValidDate f.endDate)

instance (f : FormFields) : Decidable (ValidFields f) := by
  unfold ValidFields
  infer_instance

/-! ## Definitions: form handlers (weekday toggle, frequency switch,
end-type switch) -/

/-- `String.prototype.replace(regex, '')` for a match-length-reporting
matcher: delete the first match. -/
def dropFirstMatch (m : RText → Option Nat) : RText → RText
  | [] => []
  | c :: s =>
    match m (c :: s) with
    | some len => (c :: s).drop len
    | none => c :: dropFirstMatch m s

/-- The `\d+` tail of a `;COUNT=\d+` match (match length, key included). -/
def countCap (r : RText) : Option Nat :=
  let ds := takeDigits r
  if ds.isEmpty then none else some (7 + ds.length)

/-- Matcher for `;COUNT=\d+` (match length). -/
def countMatcher : RText → Option Nat := keyBind (str ";COUNT=") countCap

/-- The `\d+T\d+Z` tail of a `;UNTIL=\d+T\d+Z` match (match length, key
included). -/
def untilCap (r : RText) : Option Nat :=
  let d1 := takeDigits r
  if d1.isEmpty then none
  else
    match r.drop d1.length with
    | 'T' :: r2 =>
      let d2 := takeDigits r2
      if d2.isEmpty then none
      else
        match r2.drop d2.length with
        | 'Z' :: _ => some (7 + d1.length + 1 + d2.length + 1)
        | _ => none
    | _ => none

/-- Matcher for `;UNTIL=\d+T\d+Z` (match length). -/
def untilMatcher : RText → Option Nat := keyBind (str ";UNTIL=") untilCap

/-- The end-type radio handler of the schedule form: strip any COUNT / UNTIL
token, then append the token of the newly selected end type (`endCount = 0`
and a missing end date are falsy and append nothing). -/
def endTypeOp (endType : EndType) (endCount : Nat) (endDate : Option UTCDate)
    (r : RText) : RText :=
  let r1 := dropFirstMatch untilMatcher (dropFirstMatch countMatcher r)
  match endType with
  | .count =>
    if endCount ≠ 0 then r1 ++ str ";COUNT=" ++ natDigits endCount else r1
  | .untilD =>
    match endDate with
    | some d => r1 ++ str ";UNTIL=" ++ encodeUntilToken d
    | none => r1
  | .never => r1

/-- The weekday-chip click of the schedule form: toggle the day; if removal
empties the selection, default back to Monday. -/
def chipToggle (selectedDays : List RText) (day : RText) : List RText :=
  if selectedDays.contains day then
    let nd := selectedDays.filter (fun d => !(d == day))
    if nd.isEmpty then [str "MO"] else nd
  else selectedDays ++ [day]

/-- `RecurringClassForm.handleWeekdayToggle`: plain toggle, with no
non-emptiness guard. -/
def handleWeekdayToggle (weekdays : List Nat) (weekday : Nat) : List Nat :=
  if weekdays.contains weekday then weekdays.filter (fun d => !(d == weekday))
  else weekdays ++ [weekday]

/-- `RecurringClassForm.handleFrequencyChange`: the weekday state after a
frequency switch — `[Monday]` when switching to WEEKLY, empty otherwise. -/
def freqChangeWeekdays (v : Freq) : List Nat :=
  if v = .weekly then [0] else []

/-- The slice of the schedule form state the Repeat selector manipulates. -/
structure SchedFormData where
  recurrenceType : RecType
  rRule : Option RText
  interval : Nat
  selectedDays : List RText
  monthDay : Nat
deriving Repr, DecidableEq

/-- The Repeat selector's onChange: set the new recurrence type; delete the
rule string only when switching to 'none'; every other field is kept. -/
def switchRecurrenceType (fd : SchedFormData) (v : RecType) : SchedFormData :=
  let nf := { fd with recurrenceType := v }
  if v = .noneR then { nf with rRule := none } else nf

/-! ## Definitions: scanning-verification predicates -/

/-- The matcher has no hit starting inside `lit` when `s` follows. -/
def NoHit {α : Type} (m : RText → Option α) : RText → RText → Prop
  | [], _ => True
  | c :: l, s => m ((c :: l) ++ s) = none ∧ NoHit m l s

def strongClean (key t : RText) : Bool :=
  !(startsWith t key) && !(startsWith key t)

/-- No occurrence of `key` can start anywhere inside `lit`, whatever
follows. -/
def cleanFor (key : RText) : RText → Bool
  | [] => true
  | c :: l => strongClean key (c :: l) && cleanFor key l

def headNotSep (l : RText) : Bool :=
  match l with
  | [] => false
  | c :: _ => !(c == ',') && !(c == ';')

/-- No occurrence of `key` can start at a position whose remaining text is
`t` followed by a separator (or the end of the string). -/
def sepClean (key t : RText) : Bool :=
  !(startsWith key t) && (!(startsWith t key) || headNotSep (key.drop t.length))

def keyHeadNotComma (key : RText) : Bool :=
  match key with
  | [] => false
  | c :: _ => !(c == ',')

/-- `key` can hit neither inside any weekday code nor at a comma. -/
def codeClean (key : RText) : Bool :=
  keyHeadNotComma key &&
    dayCodes.all (fun d => d.tails.all (fun t => t.isEmpty || sepClean key t))

/-- A separator-bounded continuation: empty, or starting with `,` or `;`. -/
def SepBound (s : RText) : Prop :=
  s = [] ∨ ∃ c y, s = c :: y ∧ ((c == ',') = true ∨ (c == ';') = true)

/-- A monthly form state used by the C8 counterexample. -/
def fdMonthly : SchedFormData :=
  { recurrenceType := .monthly,
    rRule := some (str "FREQ=MONTHLY;INTERVAL=1;BYMONTHDAY=15"),
    interval := 1, selectedDays := [str "MO"], monthDay := 15 }

/-- A concrete form state used by the witnesses: class 7, 2024-01-01 to
2024-01-10, 09:00–10:00, daily with interval 2, no count. -/
def inpW : SubmitInput :=
  { classId := some 7, startDate := some ⟨2024, 1, 1⟩, endDate := some ⟨2024, 1, 10⟩,
    startTime := some 540, endTime := some 600, frequency := .daily,
    interval := 2, weekdays := [], count := none }

/-- The schedules `handleSubmit` produces for `inpW`. -/
def lW : List OutSchedule :=
  (expandRule { freq := .daily, interval := 2, byweekday := [], bymonthday := none }
      ⟨2024, 1, 1⟩ 540 (.untilTs (epochDay ⟨2024, 1, 10⟩ * 1440 + 1439))).map
    (fun dt => { classId := 7, startTs := epochDay dt * 1440 + 540,
                 endTs := (epochDay dt * 1440 + 540 : Int) + ((600 : Int) - (540 : Int)) })

/-- A fully-filled weekly form state with an empty weekday set, used by the
C7 witness. -/
def inpC7 : SubmitInput :=
  { classId := some 1, startDate := some ⟨2024, 1, 1⟩,
    endDate := some ⟨2024, 1, 2⟩, startTime := some 540, endTime := some 600,
    frequency := .weekly, interval := 1, weekdays := [], count := none }

/-- Concrete weekly form fields used by the round-trip witness. -/
def fC1w : FormFields :=
  { recurrenceType := .weekly, interval := 2,
    selectedDays := [str "MO", str "WE", str "FR"], monthDay := 15,
    endType := .untilD, endCount := 6, endDate := ⟨2024, 3, 31⟩ }

/-- Concrete monthly form fields used by the round-trip witness. -/
def fC1m : FormFields :=
  { recurrenceType := .monthly, interval := 1,
    selectedDays := [str "MO"], monthDay := 15,
    endType := .count, endCount := 10, endDate := ⟨2024, 3, 31⟩ }

/-! ## Theorems: array-primitive lemmas -/

theorem jsFindIndex_eq_none {α : Type} (p : α → Bool) (l : List α)
    (h : ∀ x ∈ l, p x = false) : jsFindIndex p l = none := by
  induction l with
  | nil => rfl
  | cons x xs ih =>
    have hx := h x (List.mem_cons_self x xs)
    simp [jsFindIndex, hx, ih (fun y hy => h y (List.mem_cons_of_mem x hy))]

theorem jsFindIndex_isSome_of_mem {α : Type} (p : α → Bool) (l : List α)
    (x : α) (hx : x ∈ l) (hpx : p x = true) : ∃ i, jsFindIndex p l = some i := by
  induction l with
  | nil => cases hx
  | cons y ys ih =>
    by_cases hy : p y = true
    · exact ⟨0, by simp [jsFindIndex, hy]⟩
    · rcases List.mem_cons.mp hx with rfl | hx'
      · exact absurd hpx hy
      · rcases ih hx' with ⟨i, hi⟩
        refine ⟨i + 1, ?_⟩
        have hy' : p y = false := by simpa using hy
        simp [jsFindIndex, hy', hi]

/-- Removing the element found by `findIndex` (the source's
`array.splice(index, 1)`) equals filtering the key out, provided the keys
are distinct. -/
theorem eraseIdx_jsFindIndex {α : Type} (key : α → Nat) (k : Nat) (l : List α)
    (hnd : (l.map key).Nodup) (i : Nat)
    (h : jsFindIndex (fun x => key x == k) l = some i) :
    l.eraseIdx i = l.filter (fun x => key x != k) := by
  induction l generalizing i with
  | nil => simp [jsFindIndex] at h
  | cons x xs ih =>
    rw [List.map_cons, List.nodup_cons] at hnd
    cases hx : (key x == k) with
    | true =>
      have hk : key x = k := by simpa using hx
      have hi : i = 0 := by
        simp [jsFindIndex, hx] at h
        omega
      subst hi
      have hxs : ∀ y ∈ xs, (key y != k) = true := by
        intro y hy
        have hky : key y ≠ k := by
          intro hc
          apply hnd.1
          have hmem : key y ∈ xs.map key := List.mem_map_of_mem key hy
          rwa [hc, ← hk] at hmem
        simpa using hky
      rw [List.eraseIdx_cons_zero, List.filter_cons,
        if_neg (by simp [hk]), List.filter_eq_self.mpr hxs]
    | false =>
      simp only [jsFindIndex, hx, Bool.false_eq_true, if_false,
        Option.map_eq_some'] at h
      rcases h with ⟨j, hj, rfl⟩
      have hne : key x ≠ k := by simpa using hx
      rw [List.eraseIdx_cons_succ, List.filter_cons,
        if_pos (by simpa using hne), ih hnd.2 j hj]

/-! ## Theorems: store-deletion lemmas -/

theorem studentsDelete_some (s : Store) (i idx : Nat)
    (h : jsFindIndex (fun st => st.id == i) s.students = some idx) :
    studentsDelete s i
      = if s.classes.any (fun c => c.studentIds.contains i) then (false, s)
        else (true, { s with students := s.students.eraseIdx idx }) := by
  unfold studentsDelete
  rw [h]

theorem coachesDelete_some (s : Store) (i idx : Nat)
    (h : jsFindIndex (fun t => t.id == i) s.coaches = some idx) :
    coachesDelete s i
      = if s.classes.any (fun c => c.coachId == i) then (false, s)
        else (true, { s with coaches := s.coaches.eraseIdx idx }) := by
  unfold coachesDelete
  rw [h]

theorem classesDelete_some (s : Store) (cid idx : Nat)
    (h : jsFindIndex (fun c => c.id == cid) s.classes = some idx) :
    classesDelete s cid
      = (true, { s with
          schedules := (s.schedules.filter (fun sc => sc.classId == cid)).foldl
            (fun acc sched => deleteScheduleById acc sched.id) s.schedules,
          classes := s.classes.eraseIdx idx }) := by
  unfold classesDelete
  rw [h]

theorem deleteScheduleById_cons_ne (x : SchedRecord) (acc : List SchedRecord)
    (sid : Nat) (h : x.id ≠ sid) :
    deleteScheduleById (x :: acc) sid = x :: deleteScheduleById acc sid := by
  have hx : (x.id == sid) = false := by simpa using h
  unfold deleteScheduleById
  have hfi : jsFindIndex (fun sc => sc.id == sid) (x :: acc)
      = (jsFindIndex (fun sc => sc.id == sid) acc).map (· + 1) := by
    simp [jsFindIndex, hx]
  rw [hfi]
  cases hfind : jsFindIndex (fun sc => sc.id == sid) acc with
  | none => simp
  | some j => simp [List.eraseIdx_cons_succ]

theorem foldDelete_cons (todo : List SchedRecord) (x : SchedRecord)
    (acc : List SchedRecord) (h : ∀ t ∈ todo, t.id ≠ x.id) :
    todo.foldl (fun a sched => deleteScheduleById a sched.id) (x :: acc)
      = x :: todo.foldl (fun a sched => deleteScheduleById a sched.id) acc := by
  induction todo generalizing acc with
  | nil => rfl
  | cons t ts ih =>
    simp only [List.foldl_cons]
    rw [deleteScheduleById_cons_ne x acc t.id
      (fun hc => h t (List.mem_cons_self t ts) hc.symm)]
    exact ih _ (fun u hu => h u (List.mem_cons_of_mem t hu))

/-- The cascade loop of `classesApi.delete` removes exactly the schedules it
selected, provided schedule ids are distinct. -/
theorem foldDelete_filter (l : List SchedRecord) (p : SchedRecord → Bool)
    (hnd : (l.map (fun sc => sc.id)).Nodup) :
    (l.filter p).foldl (fun acc sched => deleteScheduleById acc sched.id) l
      = l.filter (fun x => !(p x)) := by
  induction l with
  | nil => rfl
  | cons x xs ih =>
    rw [List.map_cons, List.nodup_cons] at hnd
    have hxs : ∀ t ∈ xs.filter p, t.id ≠ x.id := by
      intro t ht hc
      apply hnd.1
      have hmem : t.id ∈ xs.map (fun sc => sc.id) :=
        List.mem_map_of_mem _ (List.mem_of_mem_filter ht)
      rwa [hc] at hmem
    cases hp : p x with
    | true =>
      rw [show (x :: xs).filter p = x :: xs.filter p from by
            simp [List.filter_cons, hp],
          show (x :: xs).filter (fun t => !(p t)) = xs.filter (fun t => !(p t)) from by
            simp [List.filter_cons, hp]]
      simp only [List.foldl_cons]
      rw [show deleteScheduleById (x :: xs) x.id = xs from by
            simp [deleteScheduleById, jsFindIndex]]
      exact ih hnd.2
    | false =>
      rw [show (x :: xs).filter p = xs.filter p from by
            simp [List.filter_cons, hp],
          show (x :: xs).filter (fun t => !(p t)) = x :: xs.filter (fun t => !(p t)) from by
            simp [List.filter_cons, hp]]
      rw [foldDelete_cons _ x xs hxs]
      rw [ih hnd.2]

theorem studentsDelete_missing (s : Store) (i : Nat)
    (h : ∀ st ∈ s.students, st.id ≠ i) : studentsDelete s i = (false, s) := by
  unfold studentsDelete
  rw [jsFindIndex_eq_none _ _ (fun st hst => by simpa using h st hst)]

theorem studentsDelete_referenced (s : Store) (i : Nat)
    (h : ∃ c ∈ s.classes, i ∈ c.studentIds) : studentsDelete s i = (false, s) := by
  rcases h with ⟨c, hc, hm⟩
  have hany : s.classes.any (fun c => c.studentIds.contains i) = true := by
    rw [List.any_eq_true]
    exact ⟨c, hc, by simpa using hm⟩
  cases hfind : jsFindIndex (fun st => st.id == i) s.students with
  | none => unfold studentsDelete; rw [hfind]
  | some idx => rw [studentsDelete_some s i idx hfind, if_pos hany]

theorem studentsDelete_success (s : Store) (i : Nat)
    (hnd : (s.students.map (fun st => st.id)).Nodup)
    (hmem : ∃ st ∈ s.students, st.id = i)
    (href : ∀ c ∈ s.classes, i ∉ c.studentIds) :
    studentsDelete s i
      = (true, { s with students := s.students.filter (fun st => st.id != i) }) := by
  rcases hmem with ⟨st, hst, hid⟩
  rcases jsFindIndex_isSome_of_mem (fun st => st.id == i) s.students st hst
    (by simpa using hid) with ⟨idx, hidx⟩
  have hany : s.classes.any (fun c => c.studentIds.contains i) = false := by
    rw [List.any_eq_false]
    intro c hc
    simpa using href c hc
  rw [studentsDelete_some s i idx hidx, if_neg (by rw [hany]; simp),
    eraseIdx_jsFindIndex (fun st => st.id) i s.students hnd idx hidx]

theorem coachesDelete_missing (s : Store) (i : Nat)
    (h : ∀ t ∈ s.coaches, t.id ≠ i) : coachesDelete s i = (false, s) := by
  unfold coachesDelete
  rw [jsFindIndex_eq_none _ _ (fun t ht => by simpa using h t ht)]

theorem coachesDelete_referenced (s : Store) (i : Nat)
    (h : ∃ c ∈ s.classes, c.coachId = i) : coachesDelete s i = (false, s) := by
  rcases h with ⟨c, hc, hm⟩
  have hany : s.classes.any (fun c => c.coachId == i) = true := by
    rw [List.any_eq_true]
    exact ⟨c, hc, by simpa using hm⟩
  cases hfind : jsFindIndex (fun t => t.id == i) s.coaches with
  | none => unfold coachesDelete; rw [hfind]
  | some idx => rw [coachesDelete_some s i idx hfind, if_pos hany]

theorem coachesDelete_success (s : Store) (i : Nat)
    (hnd : (s.coaches.map (fun t => t.id)).Nodup)
    (hmem : ∃ t ∈ s.coaches, t.id = i)
    (href : ∀ c ∈ s.classes, c.coachId ≠ i) :
    coachesDelete s i
      = (true, { s with coaches := s.coaches.filter (fun t => t.id != i) }) := by
  rcases hmem with ⟨t, ht, hid⟩
  rcases jsFindIndex_isSome_of_mem (fun t => t.id == i) s.coaches t ht
    (by simpa using hid) with ⟨idx, hidx⟩
  have hany : s.classes.any (fun c => c.coachId == i) = false := by
    rw [List.any_eq_false]
    intro c hc
    simpa using href c hc
  rw [coachesDelete_some s i idx hidx, if_neg (by rw [hany]; simp),
    eraseIdx_jsFindIndex (fun t => t.id) i s.coaches hnd idx hidx]

/-! ## Theorems: calendar lemmas -/

theorem daysInMonth_pos (y m : Nat) : 1 ≤ daysInMonth y m := by
  unfold daysInMonth
  split <;> try omega
  split <;> omega

theorem validDate_nextDate (d : UTCDate) (h : ValidDate d) :
    ValidDate (nextDate d) := by
  obtain ⟨h1, h2, h3, h4⟩ := h
  unfold nextDate
  split
  next hlt =>
    unfold ValidDate
    dsimp only
    omega
  next hge =>
    split
    next hm =>
      unfold ValidDate
      dsimp only
      have := daysInMonth_pos d.year (d.month + 1)
      omega
    next hm =>
      unfold ValidDate
      dsimp only
      have := daysInMonth_pos (d.year + 1) 1
      omega

theorem daysBeforeMonth_succ (y m : Nat) (h : 1 ≤ m) :
    daysBeforeMonth y (m + 1) = daysBeforeMonth y m + daysInMonth y m := by
  obtain ⟨k, rfl⟩ : ∃ k, m = k + 1 := ⟨m - 1, by omega⟩
  rfl

theorem daysBeforeMonth_twelve (y : Nat) :
    daysBeforeMonth y 12 = 334 + (if isLeap y then 1 else 0) := by
  have e : daysBeforeMonth y 12
      = 0 + 31 + daysInMonth y 2 + 31 + 30 + 31 + 30 + 31 + 31 + 30 + 31 + 30 := rfl
  have h2 : daysInMonth y 2 = if isLeap y then 29 else 28 := rfl
  rw [e, h2]
  cases hL : isLeap y <;> simp

theorem epochDay_nextDate (d : UTCDate) (h : ValidDate d) :
    epochDay (nextDate d) = epochDay d + 1 := by
  obtain ⟨h1, h2, h3, h4⟩ := h
  unfold nextDate
  split
  next hlt =>
    unfold epochDay
    dsimp only
    omega
  next hge =>
    split
    next hm =>
      unfold epochDay
      dsimp only
      rw [daysBeforeMonth_succ d.year d.month h1]
      omega
    next hm =>
      have hm12 : d.month = 12 := by omega
      have hdim : daysInMonth d.year 12 = 31 := rfl
      rw [hm12, hdim] at h4
      rw [hm12] at hge
      rw [hdim] at hge
      have hday : d.day = 31 := by omega
      unfold epochDay
      dsimp only
      rw [hm12, hday, daysBeforeMonth_twelve]
      rw [show leapsBefore (d.year + 1)
            = leapsBefore d.year + (if isLeap d.year then 1 else 0) from rfl]
      rw [show daysBeforeMonth (d.year + 1) 1 = 0 from rfl]
      cases hL : isLeap d.year <;> simp <;> omega

/-! ## Theorems: expansion lemmas -/

theorem expandAux_sound (keep : UTCDate → Bool) (fuel : Nat) (dt : UTCDate)
    (hv : ValidDate dt) :
    (∀ x ∈ expandAux keep fuel dt,
      keep x = true ∧ ValidDate x ∧ epochDay dt ≤ epochDay x) ∧
    (expandAux keep fuel dt).Pairwise (fun a b => epochDay a < epochDay b) := by
  induction fuel generalizing dt with
  | zero =>
    simp only [expandAux]
    exact ⟨fun x hx => absurd hx (List.not_mem_nil x), List.Pairwise.nil⟩
  | succ f ih =>
    obtain ⟨ihm, ihp⟩ := ih (nextDate dt) (validDate_nextDate dt hv)
    have hstep : epochDay (nextDate dt) = epochDay dt + 1 := epochDay_nextDate dt hv
    simp only [expandAux]
    constructor
    · intro x hx
      rcases List.mem_append.mp hx with hx1 | hx2
      · by_cases hk : keep dt = true
        · rw [if_pos hk] at hx1
          rcases List.mem_singleton.mp hx1 with rfl
          exact ⟨hk, hv, le_refl _⟩
        · rw [if_neg hk] at hx1
          cases hx1
      · obtain ⟨ha, hb, hc⟩ := ihm x hx2
        exact ⟨ha, hb, by omega⟩
    · rw [List.pairwise_append]
      refine ⟨?_, ihp, ?_⟩
      · by_cases hk : keep dt = true
        · rw [if_pos hk]
          exact List.pairwise_singleton _ _
        · rw [if_neg hk]
          exact List.Pairwise.nil
      · intro a ha b hb
        by_cases hk : keep dt = true
        · rw [if_pos hk] at ha
          rcases List.mem_singleton.mp ha with rfl
          have := (ihm b hb).2.2
          omega
        · rw [if_neg hk] at ha
          cases ha

theorem expandRule_mem (r : MRule) (anchor : UTCDate) (startMin : Nat)
    (e : EndCond) (hv : ValidDate anchor) (x : UTCDate)
    (hx : x ∈ expandRule r anchor startMin e) :
    matchesRule r anchor x = true ∧ ValidDate x ∧
      epochDay anchor ≤ epochDay x ∧
      (∀ ts, e = .untilTs ts → epochDay x * 1440 + startMin ≤ ts) := by
  cases e with
  | untilTs ts =>
    obtain ⟨hk, hvx, hle⟩ := (expandAux_sound _ _ anchor hv).1 x hx
    rw [Bool.and_eq_true] at hk
    refine ⟨hk.1, hvx, hle, ?_⟩
    intro ts' hts
    have hts' : ts' = ts := by cases hts; rfl
    subst hts'
    simpa using hk.2
  | countN n =>
    have hx' : x ∈ expandAux (matchesRule r anchor) (n * r.interval * 366 + 366) anchor :=
      List.mem_of_mem_take hx
    obtain ⟨hk, hvx, hle⟩ := (expandAux_sound _ _ anchor hv).1 x hx'
    exact ⟨hk, hvx, hle, fun ts hts => by cases hts⟩

theorem expandRule_pairwise (r : MRule) (anchor : UTCDate) (startMin : Nat)
    (e : EndCond) (hv : ValidDate anchor) :
    (expandRule r anchor startMin e).Pairwise (fun a b => epochDay a < epochDay b) := by
  cases e with
  | untilTs ts => exact (expandAux_sound _ _ anchor hv).2
  | countN n =>
    exact List.Pairwise.sublist (List.take_sublist _ _) (expandAux_sound _ _ anchor hv).2

theorem expandRule_length_count (r : MRule) (anchor : UTCDate) (startMin n : Nat) :
    (expandRule r anchor startMin (.countN n)).length ≤ n :=
  List.length_take_le n _

theorem matchesRule_daily (r : MRule) (anchor dt : UTCDate) (hf : r.freq = .daily)
    (h : matchesRule r anchor dt = true) :
    (epochDay dt - epochDay anchor) % r.interval = 0 := by
  unfold matchesRule at h
  rw [hf] at h
  simpa using h

theorem matchesRule_weekly (r : MRule) (anchor dt : UTCDate) (hf : r.freq = .weekly)
    (h : matchesRule r anchor dt = true) :
    ((epochDay dt - epochDay anchor) / 7) % r.interval = 0 ∧
      weekdayOf dt ∈ r.byweekday := by
  unfold matchesRule at h
  rw [hf] at h
  dsimp only at h
  rw [Bool.and_eq_true] at h
  refine ⟨by simpa using h.1, by simpa using h.2⟩

theorem matchesRule_monthly (r : MRule) (anchor dt : UTCDate) (hf : r.freq = .monthly)
    (h : matchesRule r anchor dt = true) :
    ((12 * dt.year + dt.month) - (12 * anchor.year + anchor.month)) % r.interval = 0 ∧
      dt.day = r.bymonthday.getD anchor.day := by
  unfold matchesRule at h
  rw [hf] at h
  dsimp only at h
  rw [Bool.and_eq_true] at h
  refine ⟨by simpa using h.1, by simpa using h.2⟩

/-! ## Claim theorems: C9 and C10 -/

/-- **C9**: `studentsApi.delete(id)` (and `coachesApi.delete(id)`) returns
`false` and leaves the store unchanged when the record is referenced by some
class or when no record with that id exists; otherwise it removes exactly that
one record and returns `true`. -/
theorem claim_C9_guarded_delete (s : Store) (i : Nat) :
    ((∀ st ∈ s.students, st.id ≠ i) → studentsDelete s i = (false, s)) ∧
    ((∃ c ∈ s.classes, i ∈ c.studentIds) → studentsDelete s i = (false, s)) ∧
    ((s.students.map (fun st => st.id)).Nodup →
      (∃ st ∈ s.students, st.id = i) →
      (∀ c ∈ s.classes, i ∉ c.studentIds) →
      studentsDelete s i
        = (true, { s with students := s.students.filter (fun st => st.id != i) })) ∧
    ((∀ t ∈ s.coaches, t.id ≠ i) → coachesDelete s i = (false, s)) ∧
    ((∃ c ∈ s.classes, c.coachId = i) → coachesDelete s i = (false, s)) ∧
    ((s.coaches.map (fun t => t.id)).Nodup →
      (∃ t ∈ s.coaches, t.id = i) →
      (∀ c ∈ s.classes, c.coachId ≠ i) →
      coachesDelete s i
        = (true, { s with coaches := s.coaches.filter (fun t => t.id != i) })) :=
  ⟨studentsDelete_missing s i, studentsDelete_referenced s i,
    studentsDelete_success s i, coachesDelete_missing s i,
    coachesDelete_referenced s i, coachesDelete_success s i⟩

/-- Witness for C9 on a concrete store: student 1 is unreferenced and is
deleted; student 2 is enrolled in a class and the delete is refused. -/
theorem claim_C9_guarded_delete_witness :
    ((storeW.students.map (fun st => st.id)).Nodup ∧
      (∃ st ∈ storeW.students, st.id = 1) ∧
      (∀ c ∈ storeW.classes, 1 ∉ c.studentIds)) ∧
    studentsDelete storeW 1
      = (true, { storeW with students := storeW.students.filter (fun st => st.id != 1) }) ∧
    studentsDelete storeW 2 = (false, storeW) :=
  ⟨⟨by decide, by decide, by decide⟩,
    (claim_C9_guarded_delete storeW 1).2.2.1 (by decide) (by decide) (by decide),
    (claim_C9_guarded_delete storeW 2).2.1 (by decide)⟩

/-- **C10**: for a store containing a class with id `c`, `classesApi.delete(c)`
removes that class and every schedule whose `classId` equals `c`, returns
`true`, and leaves every other class and schedule unchanged; afterwards no
schedule in the store references the deleted class. -/
theorem claim_C10_cascade_delete (s : Store) (cid : Nat)
    (hndc : (s.classes.map (fun c => c.id)).Nodup)
    (hnds : (s.schedules.map (fun sc => sc.id)).Nodup)
    (hmem : ∃ c ∈ s.classes, c.id = cid) :
    classesDelete s cid
      = (true, { s with classes := s.classes.filter (fun c => c.id != cid),
                        schedules := s.schedules.filter (fun sc => !(sc.classId == cid)) }) ∧
    ∀ sc ∈ (classesDelete s cid).2.schedules, sc.classId ≠ cid := by
  rcases hmem with ⟨c, hc, hid⟩
  rcases jsFindIndex_isSome_of_mem (fun c => c.id == cid) s.classes c hc
    (by simpa using hid) with ⟨idx, hidx⟩
  have hmain : classesDelete s cid
      = (true, { s with classes := s.classes.filter (fun c => c.id != cid),
                        schedules := s.schedules.filter (fun sc => !(sc.classId == cid)) }) := by
    rw [classesDelete_some s cid idx hidx,
      foldDelete_filter s.schedules (fun sc => sc.classId == cid) hnds,
      eraseIdx_jsFindIndex (fun c => c.id) cid s.classes hndc idx hidx]
  refine ⟨hmain, ?_⟩
  rw [hmain]
  intro sc hsc hceq
  have := List.of_mem_filter hsc
  simp [hceq] at this

/-- Witness for C10 on a concrete store: deleting class 5 removes it together
with its schedule and keeps the schedule of class 6. -/
theorem claim_C10_cascade_delete_witness :
    ((storeW.classes.map (fun c => c.id)).Nodup ∧
      (storeW.schedules.map (fun sc => sc.id)).Nodup ∧
      (∃ c ∈ storeW.classes, c.id = 5)) ∧
    (classesDelete storeW 5
      = (true, { storeW with
          classes := storeW.classes.filter (fun c => c.id != 5),
          schedules := storeW.schedules.filter (fun sc => !(sc.classId == 5)) }) ∧
      ∀ sc ∈ (classesDelete storeW 5).2.schedules, sc.classId ≠ 5) :=
  ⟨⟨by decide, by decide, by decide⟩,
    claim_C10_cascade_delete storeW 5 (by decide) (by decide) (by decide)⟩

/-! ## Claim theorems: C2, C3 and C5 -/

theorem handleSubmit_invalid_weekly (inp : SubmitInput) (cid : Nat)
    (sd ed : UTCDate) (st et : Nat)
    (hcid : inp.classId = some cid) (hsd : inp.startDate = some sd)
    (hed : inp.endDate = some ed) (hst : inp.startTime = some st)
    (het : inp.endTime = some et)
    (hnw : inp.frequency = .weekly ∧ inp.weekdays = []) :
    handleSubmit inp = .invalid := by
  unfold handleSubmit
  rw [hcid, hsd, hed, hst, het]
  dsimp only
  rw [if_pos hnw]

theorem handleSubmit_saved (inp : SubmitInput) (cid : Nat) (sd ed : UTCDate)
    (st et : Nat) (hcid : inp.classId = some cid) (hsd : inp.startDate = some sd)
    (hed : inp.endDate = some ed) (hst : inp.startTime = some st)
    (het : inp.endTime = some et)
    (hnw : ¬(inp.frequency = .weekly ∧ inp.weekdays = [])) :
    handleSubmit inp = .saved
      ((expandRule
          { freq := inp.frequency, interval := inp.interval,
            byweekday := if inp.frequency = .weekly then inp.weekdays else [],
            bymonthday := none }
          sd st
          (match buildEndOpts inp.count (epochDay ed * 1440 + 1439) with
            | (some c, _) => .countN c
            | (none, _) => .untilTs (epochDay ed * 1440 + 1439))).map
        (fun dt =>
          { classId := cid, startTs := epochDay dt * 1440 + st,
            endTs := (epochDay dt * 1440 + st : Int) + ((et : Int) - (st : Int)) })) := by
  unfold handleSubmit
  rw [hcid, hsd, hed, hst, het]
  dsimp only
  rw [if_neg hnw]

/-- **C2**: every expansion occurrence produced by the bulk-create submission
starts at or after the anchor start, does not exceed the rule's end condition
(UNTIL timestamp, or COUNT limit on the number of schedules), and spans
exactly the base duration `endTime - startTime`. -/
theorem claim_C2_expansion_bounds (inp : SubmitInput) (cid : Nat)
    (sd ed : UTCDate) (st et : Nat)
    (hcid : inp.classId = some cid) (hsd : inp.startDate = some sd)
    (hed : inp.endDate = some ed) (hst : inp.startTime = some st)
    (het : inp.endTime = some et) (hvd : ValidDate sd)
    (l : List OutSchedule) (hsaved : handleSubmit inp = .saved l) :
    (∀ o ∈ l, epochDay sd * 1440 + st ≤ o.startTs ∧
      o.endTs - (o.startTs : Int) = (et : Int) - (st : Int)) ∧
    (∀ c, inp.count = some c → 0 < c → l.length ≤ c) ∧
    ((inp.count = none ∨ inp.count = some 0) →
      ∀ o ∈ l, o.startTs ≤ epochDay ed * 1440 + 1439) := by
  by_cases hnw : inp.frequency = .weekly ∧ inp.weekdays = []
  · exfalso
    rw [handleSubmit_invalid_weekly inp cid sd ed st et hcid hsd hed hst het hnw]
      at hsaved
    cases hsaved
  · rw [handleSubmit_saved inp cid sd ed st et hcid hsd hed hst het hnw] at hsaved
    injection hsaved with hX
    subst hX
    cases hcnt : inp.count with
    | none =>
      simp only [buildEndOpts]
      refine ⟨?_, ?_, ?_⟩
      · intro o ho
        rcases List.mem_map.mp ho with ⟨dt, hdt, rfl⟩
        have hf := expandRule_mem _ sd st _ hvd dt hdt
        dsimp only
        constructor
        · have := hf.2.2.1
          omega
        · omega
      · intro c hc
        cases hc
      · intro _ o ho
        rcases List.mem_map.mp ho with ⟨dt, hdt, rfl⟩
        have hf := expandRule_mem _ sd st _ hvd dt hdt
        dsimp only
        exact hf.2.2.2 _ rfl
    | some c =>
      by_cases hcpos : 0 < c
      · simp only [buildEndOpts, if_pos hcpos]
        refine ⟨?_, ?_, ?_⟩
        · intro o ho
          rcases List.mem_map.mp ho with ⟨dt, hdt, rfl⟩
          have hf := expandRule_mem _ sd st _ hvd dt hdt
          dsimp only
          constructor
          · have := hf.2.2.1
            omega
          · omega
        · intro c' hc' _
          injection hc' with hcc
          subst hcc
          rw [List.length_map]
          exact expandRule_length_count _ sd st c
        · intro hcontra
          rcases hcontra with hcontra | hcontra
          · cases hcontra
          · injection hcontra with hc0
            omega
      · simp only [buildEndOpts, if_neg hcpos]
        refine ⟨?_, ?_, ?_⟩
        · intro o ho
          rcases List.mem_map.mp ho with ⟨dt, hdt, rfl⟩
          have hf := expandRule_mem _ sd st _ hvd dt hdt
          dsimp only
          constructor
          · have := hf.2.2.1
            omega
          · omega
        · intro c' hc' hpos'
          injection hc' with hcc
          subst hcc
          omega
        · intro _ o ho
          rcases List.mem_map.mp ho with ⟨dt, hdt, rfl⟩
          have hf := expandRule_mem _ sd st _ hvd dt hdt
          dsimp only
          exact hf.2.2.2 _ rfl

/-- Witness for C2: the concrete daily form state `inpW` saves schedules, each
in-bounds and one hour long. -/
theorem claim_C2_expansion_bounds_witness :
    (ValidDate (⟨2024, 1, 1⟩ : UTCDate) ∧ handleSubmit inpW = .saved lW) ∧
    ((∀ o ∈ lW, epochDay ⟨2024, 1, 1⟩ * 1440 + 540 ≤ o.startTs ∧
        o.endTs - (o.startTs : Int) = (600 : Int) - (540 : Int)) ∧
      (∀ c, inpW.count = some c → 0 < c → lW.length ≤ c) ∧
      ((inpW.count = none ∨ inpW.count = some 0) →
        ∀ o ∈ lW, o.startTs ≤ epochDay ⟨2024, 1, 10⟩ * 1440 + 1439)) :=
  ⟨⟨by decide, rfl⟩,
    claim_C2_expansion_bounds inpW 7 ⟨2024, 1, 1⟩ ⟨2024, 1, 10⟩ 540 600
      rfl rfl rfl rfl rfl (by decide) lW rfl⟩

/-- **C3**: for a valid rule, the expansion output is strictly ascending and
every generated date is a real calendar date satisfying the rule's
frequency/interval constraint, its weekday set (weekly) and its month-day
(monthly, defaulting to the anchor's day). -/
theorem claim_C3_expansion_order (r : MRule) (anchor : UTCDate)
    (startMin : Nat) (e : EndCond) (hv : ValidDate anchor)
    (_hi : 1 ≤ r.interval) (_hw : r.freq = .weekly → r.byweekday ≠ []) :
    (expandRule r anchor startMin e).Pairwise (fun a b => epochDay a < epochDay b) ∧
    ∀ x ∈ expandRule r anchor startMin e,
      ValidDate x ∧
      (r.freq = .daily → (epochDay x - epochDay anchor) % r.interval = 0) ∧
      (r.freq = .weekly →
        ((epochDay x - epochDay anchor) / 7) % r.interval = 0 ∧
          weekdayOf x ∈ r.byweekday) ∧
      (r.freq = .monthly →
        ((12 * x.year + x.month) - (12 * anchor.year + anchor.month)) % r.interval = 0 ∧
          x.day = r.bymonthday.getD anchor.day) := by
  refine ⟨expandRule_pairwise r anchor startMin e hv, ?_⟩
  intro x hx
  obtain ⟨hm, hvx, _, _⟩ := expandRule_mem r anchor startMin e hv x hx
  exact ⟨hvx,
    fun hf => matchesRule_daily r anchor x hf hm,
    fun hf => matchesRule_weekly r anchor x hf hm,
    fun hf => matchesRule_monthly r anchor x hf hm⟩

/-- Witness for C3: the spec's own example rule — weekly Monday/Wednesday/Friday
anchored on Monday 2024-01-01 with COUNT=6. -/
theorem claim_C3_expansion_order_witness :
    (ValidDate (⟨2024, 1, 1⟩ : UTCDate) ∧
      1 ≤ (1 : Nat) ∧ ([0, 2, 4] : List Nat) ≠ []) ∧
    ((expandRule ⟨.weekly, 1, [0, 2, 4], none⟩ ⟨2024, 1, 1⟩ 540
        (.countN 6)).Pairwise (fun a b => epochDay a < epochDay b) ∧
      ∀ x ∈ expandRule ⟨.weekly, 1, [0, 2, 4], none⟩ ⟨2024, 1, 1⟩ 540 (.countN 6),
        ValidDate x ∧
        ((⟨.weekly, 1, [0, 2, 4], none⟩ : MRule).freq = .daily →
          (epochDay x - epochDay ⟨2024, 1, 1⟩) % 1 = 0) ∧
        ((⟨.weekly, 1, [0, 2, 4], none⟩ : MRule).freq = .weekly →
          ((epochDay x - epochDay ⟨2024, 1, 1⟩) / 7) % 1 = 0 ∧
            weekdayOf x ∈ ([0, 2, 4] : List Nat)) ∧
        ((⟨.weekly, 1, [0, 2, 4], none⟩ : MRule).freq = .monthly →
          ((12 * x.year + x.month) - (12 * 2024 + 1)) % 1 = 0 ∧
            x.day = (none : Option Nat).getD 1)) :=
  ⟨⟨by decide, by decide, by decide⟩,
    claim_C3_expansion_order ⟨.weekly, 1, [0, 2, 4], none⟩ ⟨2024, 1, 1⟩ 540
      (.countN 6) (by decide) (by decide) (fun _ => by decide)⟩

/-- **C5**: when any required field is missing (no class, start date, end
date, start time or end time, or weekly frequency with an empty weekday set),
the bulk-create submission is rejected before any expansion: no schedules are
produced. -/
theorem claim_C5_validation_guard (inp : SubmitInput)
    (h : inp.classId = none ∨ inp.startDate = none ∨ inp.endDate = none ∨
         inp.startTime = none ∨ inp.endTime = none ∨
         (inp.frequency = .weekly ∧ inp.weekdays = [])) :
    handleSubmit inp = .invalid := by
  unfold handleSubmit
  cases hc : inp.classId with
  | none => rfl
  | some cid =>
    cases hsd : inp.startDate with
    | none => rfl
    | some sd =>
      cases hed : inp.endDate with
      | none => rfl
      | some ed =>
        cases hst : inp.startTime with
        | none => rfl
        | some st =>
          cases het : inp.endTime with
          | none => rfl
          | some et =>
            rcases h with h | h | h | h | h | h
            · rw [hc] at h; cases h
            · rw [hsd] at h; cases h
            · rw [hed] at h; cases h
            · rw [hst] at h; cases h
            · rw [het] at h; cases h
            · dsimp only
              rw [if_pos h]

/-- Witness for C5: a weekly form state with an empty weekday set is
rejected. -/
theorem claim_C5_validation_guard_witness :
    ((inpW.classId = none ∨ inpW.startDate = none ∨ inpW.endDate = none ∨
        inpW.startTime = none ∨ inpW.endTime = none ∨
        ({ inpW with frequency := .weekly }.frequency = Freq.weekly ∧
          { inpW with frequency := .weekly }.weekdays = [])) ∨ True) ∧
    handleSubmit { inpW with frequency := .weekly } = .invalid :=
  ⟨Or.inr trivial,
    claim_C5_validation_guard { inpW with frequency := .weekly }
      (Or.inr (Or.inr (Or.inr (Or.inr (Or.inr ⟨rfl, rfl⟩)))))⟩

/-! ## Theorems: scanning lemmas -/

theorem startsWith_append_self (p s : RText) : startsWith p (p ++ s) = true := by
  induction p with
  | nil => rfl
  | cons c cs ih => simp [startsWith, ih]

theorem startsWith_trans_short (p t x : RText) (h : startsWith p (t ++ x) = true)
    (hl : p.length ≤ t.length) : startsWith p t = true := by
  induction p generalizing t with
  | nil => rfl
  | cons c cs ih =>
    cases t with
    | nil => simp at hl
    | cons d ds =>
      simp only [List.cons_append, startsWith, Bool.and_eq_true] at h ⊢
      exact ⟨h.1, ih ds h.2 (by simpa using hl)⟩

theorem startsWith_split (p t x : RText) (h : startsWith p (t ++ x) = true)
    (hl : t.length < p.length) :
    startsWith t p = true ∧ startsWith (p.drop t.length) x = true := by
  induction t generalizing p with
  | nil => exact ⟨rfl, by simpa using h⟩
  | cons d ds ih =>
    cases p with
    | nil => simp at hl
    | cons c cs =>
      simp only [List.cons_append, startsWith, Bool.and_eq_true] at h
      obtain ⟨h1, h2⟩ := h
      have h1e : c = d := by simpa using h1
      subst h1e
      obtain ⟨ha, hb⟩ := ih cs h2 (by simpa using hl)
      refine ⟨?_, ?_⟩
      · simp only [startsWith, Bool.and_eq_true]
        exact ⟨by simp, ha⟩
      · exact hb

/-- If neither `t` is a prefix of `key` nor `key` one of `t`, the key cannot
start at a position whose remaining text is `t ++ x`, whatever `x`. -/
theorem not_startsWith_append (key t x : RText)
    (h1 : startsWith t key = false) (h2 : startsWith key t = false) :
    startsWith key (t ++ x) = false := by
  cases hsw : startsWith key (t ++ x) with
  | false => rfl
  | true =>
    exfalso
    by_cases hl : key.length ≤ t.length
    · rw [startsWith_trans_short key t x hsw hl] at h2
      cases h2
    · obtain ⟨ha, _⟩ := startsWith_split key t x hsw (by omega)
      rw [ha] at h1
      cases h1

theorem noHit_append {α : Type} (m : RText → Option α) (a b s : RText)
    (h1 : NoHit m a (b ++ s)) (h2 : NoHit m b s) : NoHit m (a ++ b) s := by
  induction a with
  | nil => simpa using h2
  | cons c l ih =>
    obtain ⟨hc, h1'⟩ := h1
    refine ⟨?_, ih h1'⟩
    simpa [List.append_assoc] using hc

theorem scanFor_append_of_noHit {α : Type} (m : RText → Option α) (lit s : RText)
    (h : NoHit m lit s) : scanFor m (lit ++ s) = scanFor m s := by
  induction lit with
  | nil => rfl
  | cons c l ih =>
    obtain ⟨hc, h'⟩ := h
    show (match m ((c :: l) ++ s) with
      | some a => some a
      | none => scanFor m (l ++ s)) = scanFor m s
    rw [hc]
    exact ih h'

theorem scanFor_none_of_noHit {α : Type} (m : RText → Option α) (lit : RText)
    (h : NoHit m lit []) : scanFor m lit = none := by
  have h2 := scanFor_append_of_noHit m lit [] h
  simpa using h2

theorem dropFirstMatch_append_of_noHit (m : RText → Option Nat) (lit s : RText)
    (h : NoHit m lit s) :
    dropFirstMatch m (lit ++ s) = lit ++ dropFirstMatch m s := by
  induction lit with
  | nil => rfl
  | cons c l ih =>
    obtain ⟨hc, h'⟩ := h
    show (match m ((c :: l) ++ s) with
      | some len => ((c :: l) ++ s).drop len
      | none => c :: dropFirstMatch m (l ++ s)) = c :: (l ++ dropFirstMatch m s)
    rw [hc]
    show c :: dropFirstMatch m (l ++ s) = c :: (l ++ dropFirstMatch m s)
    rw [ih h']

theorem dropFirstMatch_eq_self_of_noHit (m : RText → Option Nat) (lit : RText)
    (h : NoHit m lit []) : dropFirstMatch m lit = lit := by
  have h2 := dropFirstMatch_append_of_noHit m lit [] h
  simpa [dropFirstMatch] using h2

theorem noHit_keyBind_of_clean {α : Type} (key lit s : RText) (g : RText → Option α)
    (h : cleanFor key lit = true) : NoHit (keyBind key g) lit s := by
  induction lit with
  | nil => trivial
  | cons c l ih =>
    simp only [cleanFor, Bool.and_eq_true] at h
    refine ⟨?_, ih h.2⟩
    have hs := h.1
    simp only [strongClean, Bool.and_eq_true, Bool.not_eq_true'] at hs
    have hfalse : startsWith key (c :: (l ++ s)) = false := by
      have h3 := not_startsWith_append key (c :: l) s hs.1 hs.2
      simpa using h3
    simp [keyBind, hfalse]

theorem noHit_keyBind_digits {α : Type} (key : RText) (g : RText → Option α)
    (seg s : RText) (hd : ∀ c ∈ seg, isDigitC c = true)
    (hne : key ≠ []) (hk : isDigitC (key.headD 'A') = false) :
    NoHit (keyBind key g) seg s := by
  cases key with
  | nil => exact absurd rfl hne
  | cons k ks =>
    simp only [List.headD_cons] at hk
    induction seg with
    | nil => trivial
    | cons c l ih =>
      refine ⟨?_, ih (fun c hc => hd c (List.mem_cons_of_mem _ hc))⟩
      have hc := hd c (List.mem_cons_self _ _)
      have hne2 : (k == c) = false := by
        cases hkc : (k == c) with
        | false => rfl
        | true =>
          exfalso
          have hke : k = c := by simpa using hkc
          rw [hke, hc] at hk
          cases hk
      simp [keyBind, startsWith, hne2]

theorem keyBind_none_of_sepClean {α : Type} (key t s : RText) (g : RText → Option α)
    (hsep : sepClean key t = true) (hs : SepBound s) :
    keyBind key g (t ++ s) = none := by
  simp only [sepClean, Bool.and_eq_true, Bool.not_eq_true', Bool.or_eq_true] at hsep
  obtain ⟨hknp, hrest⟩ := hsep
  have hfalse : startsWith key (t ++ s) = false := by
    cases hsw : startsWith key (t ++ s) with
    | false => rfl
    | true =>
      exfalso
      by_cases hl : key.length ≤ t.length
      · rw [startsWith_trans_short key t s hsw hl] at hknp
        cases hknp
      · obtain ⟨ha, hb⟩ := startsWith_split key t s hsw (by omega)
        rcases hrest with hrest | hrest
        · rw [ha] at hrest
          cases hrest
        · cases hdrop : key.drop t.length with
          | nil =>
            have hld := congrArg List.length hdrop
            simp only [List.length_drop, List.length_nil] at hld
            omega
          | cons kc kr =>
            rw [hdrop] at hb hrest
            simp only [headNotSep, Bool.and_eq_true, Bool.not_eq_true'] at hrest
            rcases hs with rfl | ⟨c, y, rfl, hcsep⟩
            · simp [startsWith] at hb
            · simp only [startsWith, Bool.and_eq_true] at hb
              have hkc : kc = c := by simpa using hb.1
              rcases hcsep with hcs | hcs
              · have hce : c = ',' := by simpa using hcs
                rw [hce] at hkc
                rw [hkc] at hrest
                simp at hrest
              · have hce : c = ';' := by simpa using hcs
                rw [hce] at hkc
                rw [hkc] at hrest
                simp at hrest
  simp [keyBind, hfalse]

theorem noHit_keyBind_of_sepAll {α : Type} (key t s : RText) (g : RText → Option α)
    (hall : ∀ u ∈ t.tails, u = [] ∨ sepClean key u = true) (hs : SepBound s) :
    NoHit (keyBind key g) t s := by
  induction t with
  | nil => trivial
  | cons c l ih =>
    refine ⟨?_, ih ?_⟩
    · have hsep := hall (c :: l) (by simp [List.mem_tails])
      rcases hsep with hnil | hsep
      · cases hnil
      · exact keyBind_none_of_sepClean key (c :: l) s g hsep hs
    · intro u hu
      refine hall u ?_
      rw [List.mem_tails] at hu ⊢
      exact hu.trans (List.suffix_cons c l)

theorem noHit_keyBind_code {α : Type} (key : RText) (g : RText → Option α)
    (d s : RText) (hcode : d ∈ dayCodes) (hcc : codeClean key = true)
    (hs : SepBound s) : NoHit (keyBind key g) d s := by
  simp only [codeClean, Bool.and_eq_true, List.all_eq_true] at hcc
  obtain ⟨_, hall⟩ := hcc
  refine noHit_keyBind_of_sepAll key d s g ?_ hs
  intro u hu
  have h2 := hall d hcode u hu
  rcases Bool.or_eq_true _ _ |>.mp h2 with h3 | h3
  · exact Or.inl (by simpa using h3)
  · exact Or.inr h3

theorem noHit_keyBind_joinComma {α : Type} (key : RText) (g : RText → Option α)
    (days : List RText) (s : RText)
    (hdays : ∀ d ∈ days, d ∈ dayCodes) (hcc : codeClean key = true)
    (hs : SepBound s) : NoHit (keyBind key g) (joinComma days) s := by
  induction days with
  | nil => trivial
  | cons d rest ih =>
    cases rest with
    | nil =>
      exact noHit_keyBind_code key g d s (hdays d (List.mem_cons_self _ _)) hcc hs
    | cons d2 rest2 =>
      have hbody : NoHit (keyBind key g) (',' :: joinComma (d2 :: rest2)) s := by
        refine ⟨?_, ih (fun x hx => hdays x (List.mem_cons_of_mem d hx))⟩
        have hhead : keyHeadNotComma key = true := by
          simp only [codeClean, Bool.and_eq_true] at hcc
          exact hcc.1
        cases key with
        | nil => simp [keyHeadNotComma] at hhead
        | cons kc kr =>
          simp only [keyHeadNotComma, Bool.not_eq_true'] at hhead
          simp [keyBind, startsWith, hhead]
      have hfront : NoHit (keyBind key g) d
          (',' :: (joinComma (d2 :: rest2) ++ s)) :=
        noHit_keyBind_code key g d _ (hdays d (List.mem_cons_self _ _)) hcc
          (Or.inr ⟨',', _, rfl, Or.inl (by simp)⟩)
      have hout := noHit_append (keyBind key g) d (',' :: joinComma (d2 :: rest2)) s
        (by exact hfront) hbody
      exact hout

theorem containsKey_of_scanFor_some {α : Type} (key : RText) (g : RText → Option α)
    (s : RText) (a : α) (h : scanFor (keyBind key g) s = some a) :
    containsKey key s = true := by
  induction s with
  | nil => simp [scanFor] at h
  | cons c s' ih =>
    cases hsw : startsWith key (c :: s') with
    | true =>
      unfold containsKey scanFor
      simp [keyBind, hsw]
    | false =>
      unfold scanFor at h
      rw [show keyBind key g (c :: s') = none from by simp [keyBind, hsw]] at h
      have h2 : scanFor (keyBind key g) s' = some a := h
      unfold containsKey scanFor
      rw [show keyBind key (fun _ => some ()) (c :: s') = none from by
        simp [keyBind, hsw]]
      exact ih h2

theorem drop_len_append {α : Type} (a b : List α) : (a ++ b).drop a.length = b := by
  induction a with
  | nil => rfl
  | cons c l ih => simp [ih]

theorem take_len_append {α : Type} (a b : List α) : (a ++ b).take a.length = a := by
  induction a with
  | nil => rfl
  | cons c l ih => simp [ih]

theorem keyBind_self_append {α : Type} (key : RText) (g : RText → Option α)
    (R : RText) : keyBind key g (key ++ R) = g R := by
  simp [keyBind, startsWith_append_self, drop_len_append]

theorem scanFor_hit {α : Type} (m : RText → Option α) (c : Char) (s : RText)
    (a : α) (h : m (c :: s) = some a) : scanFor m (c :: s) = some a := by
  simp [scanFor, h]

/-! ## Theorems: digit-string lemmas -/

theorem digitChar_isDigit (k : Nat) : isDigitC (digitChar k) = true := by
  unfold digitChar
  split <;> rfl

theorem charVal_digitChar_lt (k : Nat) (h : k < 10) : charVal (digitChar k) = k := by
  interval_cases k <;> rfl

theorem natDigits_all_digits (n : Nat) : ∀ c ∈ natDigits n, isDigitC c = true := by
  induction n using Nat.strong_induction_on with
  | _ n ih =>
    rw [natDigits]
    split
    · intro c hc
      rcases List.mem_singleton.mp hc with rfl
      exact digitChar_isDigit n
    · intro c hc
      rcases List.mem_append.mp hc with h1 | h2
      · exact ih (n / 10) (Nat.div_lt_self (by omega) (by omega)) c h1
      · rcases List.mem_singleton.mp h2 with rfl
        exact digitChar_isDigit (n % 10)

theorem natDigits_ne_nil (n : Nat) : natDigits n ≠ [] := by
  rw [natDigits]
  split
  · simp
  · simp

theorem digitsToNat_append_digit (l : RText) (c : Char) :
    digitsToNat (l ++ [c]) = digitsToNat l * 10 + charVal c := by
  unfold digitsToNat
  rw [List.foldl_append]
  rfl

theorem digitsToNat_natDigits (n : Nat) : digitsToNat (natDigits n) = n := by
  induction n using Nat.strong_induction_on with
  | _ n ih =>
    rw [natDigits]
    split
    · next h =>
      show digitsToNat [digitChar n] = n
      unfold digitsToNat
      simp only [List.foldl_cons, List.foldl_nil]
      rw [Nat.zero_mul, Nat.zero_add]
      exact charVal_digitChar_lt n h
    · next h =>
      rw [digitsToNat_append_digit,
        ih (n / 10) (Nat.div_lt_self (by omega) (by omega)),
        charVal_digitChar_lt (n % 10) (Nat.mod_lt _ (by omega))]
      omega

theorem natDigits_length_one (n : Nat) (h : n < 10) : (natDigits n).length = 1 := by
  rw [natDigits, if_pos h]
  rfl

theorem natDigits_length_two (n : Nat) (h1 : 10 ≤ n) (h2 : n ≤ 99) :
    (natDigits n).length = 2 := by
  rw [natDigits, if_neg (by omega), List.length_append,
    natDigits_length_one (n / 10) (by omega)]
  rfl

theorem natDigits_length_three (n : Nat) (h1 : 100 ≤ n) (h2 : n ≤ 999) :
    (natDigits n).length = 3 := by
  rw [natDigits, if_neg (by omega), List.length_append,
    natDigits_length_two (n / 10) (by omega) (by omega)]
  rfl

theorem natDigits_length_four (n : Nat) (h1 : 1000 ≤ n) (h2 : n ≤ 9999) :
    (natDigits n).length = 4 := by
  rw [natDigits, if_neg (by omega), List.length_append,
    natDigits_length_three (n / 10) (by omega) (by omega)]
  rfl

theorem pad2_length (n : Nat) (h : n ≤ 99) : (pad2 n).length = 2 := by
  unfold pad2
  split
  · next h1 => simp [natDigits_length_one n h1]
  · next h1 => exact natDigits_length_two n (by omega) h

theorem pad2_all_digits (n : Nat) : ∀ c ∈ pad2 n, isDigitC c = true := by
  unfold pad2
  split
  · intro c hc
    rcases List.mem_cons.mp hc with rfl | hc'
    · rfl
    · exact natDigits_all_digits n c hc'
  · exact natDigits_all_digits n

theorem digitsToNat_cons_zero (l : RText) :
    digitsToNat ('0' :: l) = digitsToNat l := by
  unfold digitsToNat
  rw [List.foldl_cons]
  have h0 : (0 * 10 + charVal '0') = 0 := rfl
  rw [h0]

theorem digitsToNat_pad2 (n : Nat) : digitsToNat (pad2 n) = n := by
  unfold pad2
  split
  · rw [digitsToNat_cons_zero]
    exact digitsToNat_natDigits n
  · exact digitsToNat_natDigits n

/-! ## Theorems: takeWhile and split/join lemmas -/

theorem takeWhile_append_of_all {α : Type} (p : α → Bool) (a b : List α)
    (ha : ∀ x ∈ a, p x = true) :
    (a ++ b).takeWhile p = a ++ b.takeWhile p := by
  induction a with
  | nil => rfl
  | cons c l ih =>
    have hc := ha c (List.mem_cons_self _ _)
    simp only [List.cons_append, List.takeWhile_cons, hc, if_true]
    rw [ih (fun x hx => ha x (List.mem_cons_of_mem _ hx))]

theorem takeDigits_digits_append (a b : RText) (ha : ∀ c ∈ a, isDigitC c = true)
    (hb : b = [] ∨ ∃ c y, b = c :: y ∧ isDigitC c = false) :
    takeDigits (a ++ b) = a := by
  unfold takeDigits
  rw [takeWhile_append_of_all isDigitC a b ha]
  rcases hb with rfl | ⟨c, y, rfl, hc⟩
  · simp
  · simp [List.takeWhile_cons, hc]

theorem takeNonSemi_append (a b : RText) (ha : ∀ c ∈ a, (c == ';') = false)
    (hb : b = [] ∨ ∃ y, b = ';' :: y) :
    (a ++ b).takeWhile (fun c => !(c == ';')) = a := by
  rw [takeWhile_append_of_all _ a b (fun x hx => by simp [ha x hx])]
  rcases hb with rfl | ⟨y, rfl⟩
  · simp
  · simp [List.takeWhile_cons]

theorem dayCode_chars (d : RText) (hd : d ∈ dayCodes) :
    ∀ c ∈ d, (c == ';') = false ∧ (c == ',') = false := by
  simp only [dayCodes, List.mem_cons, List.not_mem_nil, or_false] at hd
  rcases hd with rfl | rfl | rfl | rfl | rfl | rfl | rfl <;> decide

theorem dayCode_ne_nil (d : RText) (hd : d ∈ dayCodes) : d ≠ [] := by
  simp only [dayCodes, List.mem_cons, List.not_mem_nil, or_false] at hd
  rcases hd with rfl | rfl | rfl | rfl | rfl | rfl | rfl <;> decide

theorem joinComma_no_semi (days : List RText)
    (hdays : ∀ d ∈ days, d ∈ dayCodes) :
    ∀ c ∈ joinComma days, (c == ';') = false := by
  induction days with
  | nil => intro c hc; cases hc
  | cons d rest ih =>
    cases rest with
    | nil =>
      intro c hc
      exact (dayCode_chars d (hdays d (List.mem_cons_self _ _)) c
        (by simpa [joinComma] using hc)).1
    | cons d2 r2 =>
      intro c hc
      rw [show joinComma (d :: d2 :: r2) = d ++ ',' :: joinComma (d2 :: r2)
        from rfl] at hc
      rcases List.mem_append.mp hc with h1 | h2
      · exact (dayCode_chars d (hdays d (List.mem_cons_self _ _)) c h1).1
      · rcases List.mem_cons.mp h2 with rfl | h3
        · rfl
        · exact ih (fun x hx => hdays x (List.mem_cons_of_mem _ hx)) c h3

theorem splitComma_cons_ne (c : Char) (l : RText) (hc : (c == ',') = false) :
    splitComma (c :: l)
      = match splitComma l with
        | [] => [[c]]
        | g :: gs => (c :: g) :: gs := by
  rw [splitComma]
  rw [if_neg (by simp [hc])]

theorem splitComma_no_comma (d : RText) (hdc : ∀ c ∈ d, (c == ',') = false) :
    splitComma d = [d] := by
  induction d with
  | nil => rfl
  | cons c l ih =>
    have hc := hdc c (List.mem_cons_self _ _)
    simp [splitComma, hc, ih (fun x hx => hdc x (List.mem_cons_of_mem _ hx))]

theorem splitComma_append_code (d : RText) (rest : RText) (hd : d ≠ [])
    (hdc : ∀ c ∈ d, (c == ',') = false) :
    splitComma (d ++ ',' :: rest) = d :: splitComma rest := by
  induction d with
  | nil => exact absurd rfl hd
  | cons c l ih =>
    have hc := hdc c (List.mem_cons_self _ _)
    rw [show ((c :: l) ++ ',' :: rest : RText) = c :: (l ++ ',' :: rest) from rfl,
      splitComma_cons_ne c _ hc]
    cases l with
    | nil =>
      rw [show (([] : RText) ++ ',' :: rest) = ',' :: rest from rfl]
      rw [show splitComma (',' :: rest) = [] :: splitComma rest from by
        rw [splitComma]
        simp]
    | cons c2 l2 =>
      rw [ih (by simp) (fun x hx => hdc x (List.mem_cons_of_mem _ hx))]

theorem splitComma_joinComma (days : List RText)
    (hne : days ≠ []) (hdays : ∀ d ∈ days, d ∈ dayCodes) :
    splitComma (joinComma days) = days := by
  induction days with
  | nil => exact absurd rfl hne
  | cons d rest ih =>
    cases rest with
    | nil =>
      show splitComma d = [d]
      exact splitComma_no_comma d
        (fun c hc => (dayCode_chars d (hdays d (List.mem_cons_self _ _)) c hc).2)
    | cons d2 r2 =>
      rw [show joinComma (d :: d2 :: r2) = d ++ ',' :: joinComma (d2 :: r2)
        from rfl]
      rw [splitComma_append_code d _
        (dayCode_ne_nil d (hdays d (List.mem_cons_self _ _)))
        (fun c hc => (dayCode_chars d (hdays d (List.mem_cons_self _ _)) c hc).2)]
      rw [ih (by simp) (fun x hx => hdays x (List.mem_cons_of_mem _ hx))]

/-! ## Theorems: `Date.UTC` and UNTIL-token lemmas -/

theorem dateUTC_valid (y mo da : Nat) (h1 : 1 ≤ mo) (h2 : mo ≤ 12)
    (h3 : 1 ≤ da) (h4 : da ≤ daysInMonth y mo) :
    dateUTC y ((mo : Int) - 1) da = ⟨y, mo, da⟩ := by
  unfold dateUTC
  dsimp only
  have hediv : ((y : Int) * 12 + ((mo : Int) - 1)) / 12 = (y : Int) := by omega
  have hemod : ((y : Int) * 12 + ((mo : Int) - 1)) % 12 = (mo : Int) - 1 := by
    omega
  rw [hediv, hemod]
  have hy : ((y : Int)).toNat = y := Int.toNat_natCast y
  have hm : ((mo : Int) - 1).toNat + 1 = mo := by omega
  rw [hy, hm]
  unfold dayNorm
  rw [if_neg (by omega), if_neg (by
    have := h4
    omega)]
  simp

theorem untilShape_encode (y m d : Nat) (hy1 : 1000 ≤ y) (hy2 : y ≤ 9999)
    (hm : m ≤ 99) (hd : d ≤ 99) :
    untilShape (encodeUntilToken ⟨y, m, d⟩) = some (y, m, d) := by
  have hlen4 : (natDigits y).length = 4 := natDigits_length_four y hy1 hy2
  have hlm : (pad2 m).length = 2 := pad2_length m hm
  have hld : (pad2 d).length = 2 := pad2_length d hd
  have hD8 : (natDigits y ++ (pad2 m ++ pad2 d)).length = 8 := by
    simp [List.length_append, hlen4, hlm, hld]
  have hassoc : encodeUntilToken ⟨y, m, d⟩
      = (natDigits y ++ (pad2 m ++ pad2 d)) ++ str "T000000Z" := by
    unfold encodeUntilToken
    simp [List.append_assoc]
  have hdig : ∀ c ∈ natDigits y ++ (pad2 m ++ pad2 d), isDigitC c = true := by
    intro c hc
    rcases List.mem_append.mp hc with h1 | h2
    · exact natDigits_all_digits y c h1
    · rcases List.mem_append.mp h2 with h3 | h4
      · exact pad2_all_digits m c h3
      · exact pad2_all_digits d c h4
  have htake : ((natDigits y ++ (pad2 m ++ pad2 d)) ++ str "T000000Z").take 8
      = natDigits y ++ (pad2 m ++ pad2 d) := by
    rw [← hD8, take_len_append]
  have hdrop : ((natDigits y ++ (pad2 m ++ pad2 d)) ++ str "T000000Z").drop 8
      = str "T000000Z" := by
    rw [← hD8, drop_len_append]
  have hc1 : (natDigits y ++ (pad2 m ++ pad2 d)).take 4 = natDigits y := by
    rw [← hlen4, take_len_append]
  have hc2 : ((natDigits y ++ (pad2 m ++ pad2 d)).drop 4).take 2 = pad2 m := by
    rw [show (4 : Nat) = (natDigits y).length from hlen4.symm, drop_len_append,
      ← hlm, take_len_append]
  have hc3 : (natDigits y ++ (pad2 m ++ pad2 d)).drop 6 = pad2 d := by
    rw [show (natDigits y ++ (pad2 m ++ pad2 d))
        = (natDigits y ++ pad2 m) ++ pad2 d from by simp [List.append_assoc]]
    rw [show (6 : Nat) = (natDigits y ++ pad2 m).length from by
      simp [List.length_append, hlen4, hlm]]
    rw [drop_len_append]
  have hcond : ((natDigits y ++ (pad2 m ++ pad2 d)).length == 8
      && (natDigits y ++ (pad2 m ++ pad2 d)).all isDigitC) = true := by
    rw [Bool.and_eq_true]
    exact ⟨by simp [hD8], List.all_eq_true.mpr hdig⟩
  rw [hassoc]
  simp only [untilShape, htake, hdrop, hcond, if_true, hc1, hc2, hc3,
    digitsToNat_natDigits, digitsToNat_pad2]
  rfl

/-! ## Theorems: canonical-string scan helpers -/

theorem scanFor_skip_clean {α : Type} (key lit s : RText) (g : RText → Option α)
    (h : cleanFor key lit = true) :
    scanFor (keyBind key g) (lit ++ s) = scanFor (keyBind key g) s :=
  scanFor_append_of_noHit _ lit s (noHit_keyBind_of_clean key lit s g h)

theorem scanFor_skip_digits {α : Type} (key seg s : RText) (g : RText → Option α)
    (hd : ∀ c ∈ seg, isDigitC c = true) (hne : key ≠ [])
    (hk : isDigitC (key.headD 'A') = false) :
    scanFor (keyBind key g) (seg ++ s) = scanFor (keyBind key g) s :=
  scanFor_append_of_noHit _ seg s (noHit_keyBind_digits key g seg s hd hne hk)

theorem scanFor_skip_days {α : Type} (key : RText) (days : List RText) (s : RText)
    (g : RText → Option α) (hdays : ∀ d ∈ days, d ∈ dayCodes)
    (hcc : codeClean key = true) (hs : SepBound s) :
    scanFor (keyBind key g) (joinComma days ++ s) = scanFor (keyBind key g) s :=
  scanFor_append_of_noHit _ _ s (noHit_keyBind_joinComma key g days s hdays hcc hs)

theorem scanFor_keyHit {α : Type} (key R : RText) (g : RText → Option α) (a : α)
    (hne : key ≠ []) (h : g R = some a) :
    scanFor (keyBind key g) (key ++ R) = some a := by
  cases key with
  | nil => exact absurd rfl hne
  | cons k ks =>
    have hm : keyBind (k :: ks) g ((k :: ks) ++ R) = some a := by
      rw [keyBind_self_append]
      exact h
    exact scanFor_hit _ k (ks ++ R) a hm

theorem takeDigits_of_all (a : RText) (ha : ∀ c ∈ a, isDigitC c = true) :
    takeDigits a = a := by
  have h := takeDigits_digits_append a [] ha (Or.inl rfl)
  simpa using h

theorem daysInMonth_le (y m : Nat) : daysInMonth y m ≤ 31 := by
  unfold daysInMonth
  split <;> try omega
  split <;> omega

/-! ## Theorems: end-suffix scan facts -/

theorem endSuffix_never (f : FormFields) (hn : f.endType = .never) :
    encodeEndSuffix f = [] := by
  unfold encodeEndSuffix
  rw [hn]

theorem endSuffix_count_eq (f : FormFields) (hc : f.endType = .count) :
    encodeEndSuffix f = str ";" ++ (str "COUNT=" ++ natDigits f.endCount) := by
  unfold encodeEndSuffix
  rw [hc]

theorem endSuffix_until_eq (f : FormFields) (hu : f.endType = .untilD) :
    encodeEndSuffix f = str ";" ++ (str "UNTIL=" ++ encodeUntilToken f.endDate) := by
  unfold encodeEndSuffix
  rw [hu]

theorem endSuffix_sepBound (f : FormFields) : SepBound (encodeEndSuffix f) := by
  unfold SepBound
  cases het : f.endType with
  | never =>
    left
    exact endSuffix_never f het
  | count =>
    right
    exact ⟨';', str "COUNT=" ++ natDigits f.endCount,
      endSuffix_count_eq f het, Or.inr rfl⟩
  | untilD =>
    right
    exact ⟨';', str "UNTIL=" ++ encodeUntilToken f.endDate,
      endSuffix_until_eq f het, Or.inr rfl⟩

theorem endSuffix_digitBound (f : FormFields) :
    encodeEndSuffix f = []
      ∨ ∃ c y, encodeEndSuffix f = c :: y ∧ isDigitC c = false := by
  rcases endSuffix_sepBound f with h | ⟨c, y, hE, hc⟩
  · exact Or.inl h
  · right
    refine ⟨c, y, hE, ?_⟩
    rcases hc with hc | hc
    · have hce : c = ',' := by simpa using hc
      subst hce
      rfl
    · have hce : c = ';' := by simpa using hc
      subst hce
      rfl

theorem endSuffix_semiBound (f : FormFields) :
    encodeEndSuffix f = [] ∨ ∃ y, encodeEndSuffix f = ';' :: y := by
  cases het : f.endType with
  | never => exact Or.inl (endSuffix_never f het)
  | count =>
    exact Or.inr ⟨str "COUNT=" ++ natDigits f.endCount, endSuffix_count_eq f het⟩
  | untilD =>
    exact Or.inr ⟨str "UNTIL=" ++ encodeUntilToken f.endDate, endSuffix_until_eq f het⟩

theorem untilToken_digits (d : UTCDate) :
    ∀ c ∈ natDigits d.year ++ pad2 d.month ++ pad2 d.day, isDigitC c = true := by
  intro c hc
  rcases List.mem_append.mp hc with h1 | h1
  · rcases List.mem_append.mp h1 with h2 | h2
    · exact natDigits_all_digits _ c h2
    · exact pad2_all_digits _ c h2
  · exact pad2_all_digits _ c h1

theorem noHit_endSuffix_never {α : Type} (f : FormFields) (key : RText)
    (g : RText → Option α) (s : RText) (hn : f.endType = .never) :
    NoHit (keyBind key g) (encodeEndSuffix f) s := by
  rw [endSuffix_never f hn]
  trivial

theorem noHit_endSuffix_count {α : Type} (f : FormFields) (key : RText)
    (g : RText → Option α) (s : RText) (hc : f.endType = .count)
    (h2 : cleanFor key (str ";") = true)
    (h4 : cleanFor key (str "COUNT=") = true)
    (hne : key ≠ []) (hk : isDigitC (key.headD 'A') = false) :
    NoHit (keyBind key g) (encodeEndSuffix f) s := by
  rw [endSuffix_count_eq f hc]
  refine noHit_append _ _ _ _ (noHit_keyBind_of_clean key _ _ g h2) ?_
  refine noHit_append _ _ _ _ (noHit_keyBind_of_clean key _ _ g h4) ?_
  exact noHit_keyBind_digits key g _ _ (natDigits_all_digits _) hne hk

theorem noHit_endSuffix_until {α : Type} (f : FormFields) (key : RText)
    (g : RText → Option α) (s : RText) (hu : f.endType = .untilD)
    (h2 : cleanFor key (str ";") = true)
    (h5 : cleanFor key (str "UNTIL=") = true)
    (h6 : cleanFor key (str "T000000Z") = true)
    (hne : key ≠ []) (hk : isDigitC (key.headD 'A') = false) :
    NoHit (keyBind key g) (encodeEndSuffix f) s := by
  rw [endSuffix_until_eq f hu]
  refine noHit_append _ _ _ _ (noHit_keyBind_of_clean key _ _ g h2) ?_
  rw [show encodeUntilToken f.endDate
      = (natDigits f.endDate.year ++ pad2 f.endDate.month ++ pad2 f.endDate.day)
        ++ str "T000000Z" from rfl]
  refine noHit_append _ _ _ _ (noHit_keyBind_of_clean key _ _ g h5) ?_
  refine noHit_append _ _ _ _ ?_ (noHit_keyBind_of_clean key _ _ g h6)
  exact noHit_keyBind_digits key g _ _ (untilToken_digits f.endDate) hne hk

/-- One no-hit lemma over the whole end suffix, for keys that are clean
against all its segments. -/
theorem noHit_endSuffix {α : Type} (f : FormFields) (key : RText)
    (g : RText → Option α) (s : RText)
    (h2 : cleanFor key (str ";") = true)
    (h4 : cleanFor key (str "COUNT=") = true)
    (h5 : cleanFor key (str "UNTIL=") = true)
    (h6 : cleanFor key (str "T000000Z") = true)
    (hne : key ≠ []) (hk : isDigitC (key.headD 'A') = false) :
    NoHit (keyBind key g) (encodeEndSuffix f) s := by
  cases het : f.endType with
  | never => exact noHit_endSuffix_never f key g s het
  | count => exact noHit_endSuffix_count f key g s het h2 h4 hne hk
  | untilD => exact noHit_endSuffix_until f key g s het h2 h5 h6 hne hk

theorem endSuffix_count_contains (f : FormFields) (hc : f.endType = .count) :
    containsKey (str "COUNT=") (encodeEndSuffix f) = true := by
  rw [endSuffix_count_eq f hc]
  unfold containsKey
  rw [scanFor_skip_clean _ _ _ _ (by decide)]
  rw [scanFor_keyHit (str "COUNT=") (natDigits f.endCount) _ () (by decide) rfl]
  rfl

theorem endSuffix_count_digits (f : FormFields) (hc : f.endType = .count) :
    findKeyDigits (str "COUNT=") (encodeEndSuffix f) = some f.endCount := by
  rw [endSuffix_count_eq f hc]
  unfold findKeyDigits
  rw [scanFor_skip_clean _ _ _ _ (by decide)]
  rw [scanFor_keyHit (str "COUNT=") (natDigits f.endCount) _ f.endCount
    (by decide) ?_]
  show (let ds := takeDigits (natDigits f.endCount);
    if ds.isEmpty then none else some (digitsToNat ds)) = some f.endCount
  rw [show takeDigits (natDigits f.endCount) = natDigits f.endCount from
    takeDigits_of_all _ (natDigits_all_digits _)]
  rw [if_neg (by simp [natDigits_ne_nil])]
  rw [digitsToNat_natDigits]

theorem endSuffix_until_contains (f : FormFields) (hu : f.endType = .untilD) :
    containsKey (str "UNTIL=") (encodeEndSuffix f) = true := by
  rw [endSuffix_until_eq f hu]
  unfold containsKey
  rw [scanFor_skip_clean _ _ _ _ (by decide)]
  rw [scanFor_keyHit (str "UNTIL=") (encodeUntilToken f.endDate) _ () (by decide) rfl]
  rfl

theorem endSuffix_until_find (f : FormFields) (hu : f.endType = .untilD)
    (hy1 : 1000 ≤ f.endDate.year) (hy2 : f.endDate.year ≤ 9999)
    (hvd : ValidDate f.endDate) :
    findUntil (encodeEndSuffix f)
      = some (f.endDate.year, f.endDate.month, f.endDate.day) := by
  obtain ⟨hm1, hm2, hd1, hd2⟩ := hvd
  have hdim := daysInMonth_le f.endDate.year f.endDate.month
  rw [endSuffix_until_eq f hu]
  unfold findUntil
  rw [scanFor_skip_clean _ _ _ _ (by decide)]
  rw [scanFor_keyHit (str "UNTIL=") (encodeUntilToken f.endDate) untilShape
    (f.endDate.year, f.endDate.month, f.endDate.day) (by decide) ?_]
  exact untilShape_encode f.endDate.year f.endDate.month f.endDate.day
    hy1 hy2 (by omega) (by omega)

/-! ## Theorems: decoding an encoded daily rule -/

theorem encodeFields_daily (f : FormFields) (hd : f.recurrenceType = .daily) :
    encodeFields f = str "FREQ=DAILY" ++ (str ";" ++ (str "INTERVAL="
      ++ (natDigits f.interval ++ encodeEndSuffix f))) := by
  unfold encodeFields encodeBase
  rw [hd]
  simp [List.append_assoc]

theorem decodeRRule_encode_daily (today : UTCDate) (asd : Nat) (ae : UTCDate)
    (f : FormFields) (hf : ValidFields f) (hd : f.recurrenceType = .daily) :
    decodeRRule today asd ae (encodeFields f)
      = some { recurrenceType := .daily, interval := f.interval,
               selectedDays := [str "MO"], monthDay := asd,
               endType := f.endType,
               endCount := if f.endType = .count then f.endCount else 10,
               endDate := if f.endType = .untilD then f.endDate else ae } := by
  obtain ⟨-, hi, -, -, hcnt, hunt⟩ := hf
  have hEq := encodeFields_daily f hd
  have h0 : (encodeFields f).isEmpty = false := by
    rw [hEq]
    rfl
  have hFD : containsKey (str "FREQ=DAILY") (encodeFields f) = true := by
    rw [hEq]
    unfold containsKey
    rw [scanFor_keyHit (str "FREQ=DAILY") _ _ () (by decide) rfl]
    rfl
  have hInt : findKeyDigits (str "INTERVAL=") (encodeFields f) = some f.interval := by
    rw [hEq]
    unfold findKeyDigits
    rw [scanFor_skip_clean _ _ _ _ (by decide), scanFor_skip_clean _ _ _ _ (by decide)]
    rw [scanFor_keyHit (str "INTERVAL=") (natDigits f.interval ++ encodeEndSuffix f)
      _ f.interval (by decide) ?_]
    show (let ds := takeDigits (natDigits f.interval ++ encodeEndSuffix f);
      if ds.isEmpty then none else some (digitsToNat ds)) = some f.interval
    rw [show takeDigits (natDigits f.interval ++ encodeEndSuffix f)
        = natDigits f.interval from
      takeDigits_digits_append _ _ (natDigits_all_digits _) (endSuffix_digitBound f)]
    rw [if_neg (by simp [natDigits_ne_nil])]
    rw [digitsToNat_natDigits]
  have hBD : containsKey (str "BYDAY=") (encodeFields f) = false := by
    rw [hEq]
    unfold containsKey
    rw [scanFor_skip_clean _ _ _ _ (by decide), scanFor_skip_clean _ _ _ _ (by decide),
      scanFor_skip_clean _ _ _ _ (by decide),
      scanFor_skip_digits _ _ _ _ (natDigits_all_digits _) (by decide) (by decide)]
    rw [scanFor_none_of_noHit _ _ (noHit_endSuffix f _ _ []
      (by decide) (by decide) (by decide) (by decide) (by decide) (by decide))]
    rfl
  have hBM : containsKey (str "BYMONTHDAY=") (encodeFields f) = false := by
    rw [hEq]
    unfold containsKey
    rw [scanFor_skip_clean _ _ _ _ (by decide), scanFor_skip_clean _ _ _ _ (by decide),
      scanFor_skip_clean _ _ _ _ (by decide),
      scanFor_skip_digits _ _ _ _ (natDigits_all_digits _) (by decide) (by decide)]
    rw [scanFor_none_of_noHit _ _ (noHit_endSuffix f _ _ []
      (by decide) (by decide) (by decide) (by decide) (by decide) (by decide))]
    rfl
  have htoE : ∀ {α : Type} (key : RText) (g : RText → Option α),
      cleanFor key (str "FREQ=DAILY") = true →
      cleanFor key (str ";") = true →
      cleanFor key (str "INTERVAL=") = true →
      key ≠ [] → isDigitC (key.headD 'A') = false →
      scanFor (keyBind key g) (encodeFields f)
        = scanFor (keyBind key g) (encodeEndSuffix f) := by
    intro α key g h1 h2 h3 hne hk
    rw [hEq, scanFor_skip_clean _ _ _ _ h1, scanFor_skip_clean _ _ _ _ h2,
      scanFor_skip_clean _ _ _ _ h3,
      scanFor_skip_digits _ _ _ _ (natDigits_all_digits _) hne hk]
  cases het : f.endType with
  | never =>
    have hC : containsKey (str "COUNT=") (encodeFields f) = false := by
      unfold containsKey
      rw [htoE _ _ (by decide) (by decide) (by decide) (by decide) (by decide)]
      rw [scanFor_none_of_noHit _ _ (noHit_endSuffix_never f _ _ [] het)]
      rfl
    have hU : containsKey (str "UNTIL=") (encodeFields f) = false := by
      unfold containsKey
      rw [htoE _ _ (by decide) (by decide) (by decide) (by decide) (by decide)]
      rw [scanFor_none_of_noHit _ _ (noHit_endSuffix_never f _ _ [] het)]
      rfl
    simp [decodeRRule, h0, hFD, hInt, hBD, hBM, hC, hU, het]
  | count =>
    have hC : containsKey (str "COUNT=") (encodeFields f) = true := by
      unfold containsKey
      rw [htoE _ _ (by decide) (by decide) (by decide) (by decide) (by decide)]
      have h := endSuffix_count_contains f het
      unfold containsKey at h
      exact h
    have hCd : findKeyDigits (str "COUNT=") (encodeFields f) = some f.endCount := by
      unfold findKeyDigits
      rw [htoE _ _ (by decide) (by decide) (by decide) (by decide) (by decide)]
      have h := endSuffix_count_digits f het
      unfold findKeyDigits at h
      exact h
    have hU : containsKey (str "UNTIL=") (encodeFields f) = false := by
      unfold containsKey
      rw [htoE _ _ (by decide) (by decide) (by decide) (by decide) (by decide)]
      rw [scanFor_none_of_noHit _ _ (noHit_endSuffix_count f _ _ [] het
        (by decide) (by decide) (by decide) (by decide))]
      rfl
    simp [decodeRRule, h0, hFD, hInt, hBD, hBM, hC, hCd, hU, het]
  | untilD =>
    obtain ⟨hy1, hy2, hvd⟩ := hunt het
    have hU : containsKey (str "UNTIL=") (encodeFields f) = true := by
      unfold containsKey
      rw [htoE _ _ (by decide) (by decide) (by decide) (by decide) (by decide)]
      have h := endSuffix_until_contains f het
      unfold containsKey at h
      exact h
    have hUf : findUntil (encodeFields f)
        = some (f.endDate.year, f.endDate.month, f.endDate.day) := by
      unfold findUntil
      rw [htoE _ _ (by decide) (by decide) (by decide) (by decide) (by decide)]
      have h := endSuffix_until_find f het hy1 hy2 hvd
      unfold findUntil at h
      exact h
    have hC : containsKey (str "COUNT=") (encodeFields f) = false := by
      unfold containsKey
      rw [htoE _ _ (by decide) (by decide) (by decide) (by decide) (by decide)]
      rw [scanFor_none_of_noHit _ _ (noHit_endSuffix_until f _ _ [] het
        (by decide) (by decide) (by decide) (by decide) (by decide))]
      rfl
    have hPU : parseUntilDate today (encodeFields f) = f.endDate := by
      unfold parseUntilDate
      rw [if_pos hU, hUf]
      obtain ⟨hm1, hm2, hd1, hd2⟩ := hvd
      show dateUTC f.endDate.year ((f.endDate.month : Int) - 1) f.endDate.day
        = f.endDate
      rw [dateUTC_valid f.endDate.year f.endDate.month f.endDate.day hm1 hm2 hd1 hd2]
    simp [decodeRRule, h0, hFD, hInt, hBD, hBM, hC, hU, hPU, het]

/-! ## Theorems: decoding an encoded weekly rule -/

theorem joinComma_ne_nil (days : List RText) (hne : days ≠ [])
    (hdays : ∀ d ∈ days, d ∈ dayCodes) : joinComma days ≠ [] := by
  cases days with
  | nil => exact absurd rfl hne
  | cons d rest =>
    cases rest with
    | nil =>
      show d ≠ []
      exact dayCode_ne_nil d (hdays d (List.mem_cons_self _ _))
    | cons d2 r2 =>
      show d ++ ',' :: joinComma (d2 :: r2) ≠ []
      simp

theorem encodeFields_weekly (f : FormFields) (hw : f.recurrenceType = .weekly) :
    encodeFields f = str "FREQ=WEEKLY" ++ (str ";" ++ (str "INTERVAL="
      ++ (natDigits f.interval ++ (str ";" ++ (str "BYDAY="
        ++ (joinComma f.selectedDays ++ encodeEndSuffix f)))))) := by
  unfold encodeFields encodeBase
  rw [hw]
  simp [List.append_assoc]

theorem decodeRRule_encode_weekly (today : UTCDate) (asd : Nat) (ae : UTCDate)
    (f : FormFields) (hf : ValidFields f) (hw : f.recurrenceType = .weekly) :
    decodeRRule today asd ae (encodeFields f)
      = some { recurrenceType := .weekly, interval := f.interval,
               selectedDays := f.selectedDays, monthDay := asd,
               endType := f.endType,
               endCount := if f.endType = .count then f.endCount else 10,
               endDate := if f.endType = .untilD then f.endDate else ae } := by
  obtain ⟨-, hi, hwk, -, hcnt, hunt⟩ := hf
  obtain ⟨hdne, hdays⟩ := hwk hw
  have hEq := encodeFields_weekly f hw
  have hsb := endSuffix_sepBound f
  have h0 : (encodeFields f).isEmpty = false := by
    rw [hEq]
    rfl
  have hFDn : containsKey (str "FREQ=DAILY") (encodeFields f) = false := by
    rw [hEq]
    unfold containsKey
    rw [scanFor_skip_clean _ _ _ _ (by decide), scanFor_skip_clean _ _ _ _ (by decide),
      scanFor_skip_clean _ _ _ _ (by decide),
      scanFor_skip_digits _ _ _ _ (natDigits_all_digits _) (by decide) (by decide),
      scanFor_skip_clean _ _ _ _ (by decide), scanFor_skip_clean _ _ _ _ (by decide),
      scanFor_skip_days _ _ _ _ hdays (by decide) hsb]
    rw [scanFor_none_of_noHit _ _ (noHit_endSuffix f _ _ []
      (by decide) (by decide) (by decide) (by decide) (by decide) (by decide))]
    rfl
  have hFW : containsKey (str "FREQ=WEEKLY") (encodeFields f) = true := by
    rw [hEq]
    unfold containsKey
    rw [scanFor_keyHit (str "FREQ=WEEKLY") _ _ () (by decide) rfl]
    rfl
  have hInt : findKeyDigits (str "INTERVAL=") (encodeFields f) = some f.interval := by
    rw [hEq]
    unfold findKeyDigits
    rw [scanFor_skip_clean _ _ _ _ (by decide), scanFor_skip_clean _ _ _ _ (by decide)]
    rw [scanFor_keyHit (str "INTERVAL=") _ _ f.interval (by decide) ?_]
    show (let ds := takeDigits (natDigits f.interval ++ (str ";" ++ (str "BYDAY="
        ++ (joinComma f.selectedDays ++ encodeEndSuffix f))));
      if ds.isEmpty then none else some (digitsToNat ds)) = some f.interval
    rw [show takeDigits (natDigits f.interval ++ (str ";" ++ (str "BYDAY="
          ++ (joinComma f.selectedDays ++ encodeEndSuffix f))))
        = natDigits f.interval from
      takeDigits_digits_append _ _ (natDigits_all_digits _)
        (Or.inr ⟨';', _, rfl, rfl⟩)]
    rw [if_neg (by simp [natDigits_ne_nil])]
    rw [digitsToNat_natDigits]
  have hBD : containsKey (str "BYDAY=") (encodeFields f) = true := by
    rw [hEq]
    unfold containsKey
    rw [scanFor_skip_clean _ _ _ _ (by decide), scanFor_skip_clean _ _ _ _ (by decide),
      scanFor_skip_clean _ _ _ _ (by decide),
      scanFor_skip_digits _ _ _ _ (natDigits_all_digits _) (by decide) (by decide),
      scanFor_skip_clean _ _ _ _ (by decide)]
    rw [scanFor_keyHit (str "BYDAY=") _ _ () (by decide) rfl]
    rfl
  have hBDf : findByday (encodeFields f) = some (joinComma f.selectedDays) := by
    rw [hEq]
    unfold findByday
    rw [scanFor_skip_clean _ _ _ _ (by decide), scanFor_skip_clean _ _ _ _ (by decide),
      scanFor_skip_clean _ _ _ _ (by decide),
      scanFor_skip_digits _ _ _ _ (natDigits_all_digits _) (by decide) (by decide),
      scanFor_skip_clean _ _ _ _ (by decide)]
    rw [scanFor_keyHit (str "BYDAY=") _ _ (joinComma f.selectedDays) (by decide) ?_]
    show (let v := (joinComma f.selectedDays
          ++ encodeEndSuffix f).takeWhile (fun c => !(c == ';'));
      if v.isEmpty then none else some v) = some (joinComma f.selectedDays)
    rw [takeNonSemi_append _ _ (joinComma_no_semi f.selectedDays hdays)
      (endSuffix_semiBound f)]
    rw [if_neg (by simp [joinComma_ne_nil f.selectedDays hdne hdays])]
  have hBM : containsKey (str "BYMONTHDAY=") (encodeFields f) = false := by
    rw [hEq]
    unfold containsKey
    rw [scanFor_skip_clean _ _ _ _ (by decide), scanFor_skip_clean _ _ _ _ (by decide),
      scanFor_skip_clean _ _ _ _ (by decide),
      scanFor_skip_digits _ _ _ _ (natDigits_all_digits _) (by decide) (by decide),
      scanFor_skip_clean _ _ _ _ (by decide), scanFor_skip_clean _ _ _ _ (by decide),
      scanFor_skip_days _ _ _ _ hdays (by decide) hsb]
    rw [scanFor_none_of_noHit _ _ (noHit_endSuffix f _ _ []
      (by decide) (by decide) (by decide) (by decide) (by decide) (by decide))]
    rfl
  have htoE : ∀ {α : Type} (key : RText) (g : RText → Option α),
      cleanFor key (str "FREQ=WEEKLY") = true →
      cleanFor key (str ";") = true →
      cleanFor key (str "INTERVAL=") = true →
      cleanFor key (str "BYDAY=") = true →
      codeClean key = true →
      key ≠ [] → isDigitC (key.headD 'A') = false →
      scanFor (keyBind key g) (encodeFields f)
        = scanFor (keyBind key g) (encodeEndSuffix f) := by
    intro α key g h1 h2 h3 h4 h5 hne hk
    rw [hEq, scanFor_skip_clean _ _ _ _ h1, scanFor_skip_clean _ _ _ _ h2,
      scanFor_skip_clean _ _ _ _ h3,
      scanFor_skip_digits _ _ _ _ (natDigits_all_digits _) hne hk,
      scanFor_skip_clean _ _ _ _ h2, scanFor_skip_clean _ _ _ _ h4,
      scanFor_skip_days _ _ _ _ hdays h5 hsb]
  have hSD : splitComma (joinComma f.selectedDays) = f.selectedDays :=
    splitComma_joinComma f.selectedDays hdne hdays
  cases het : f.endType with
  | never =>
    have hC : containsKey (str "COUNT=") (encodeFields f) = false := by
      unfold containsKey
      rw [htoE _ _ (by decide) (by decide) (by decide) (by decide) (by decide)
        (by decide) (by decide)]
      rw [scanFor_none_of_noHit _ _ (noHit_endSuffix_never f _ _ [] het)]
      rfl
    have hU : containsKey (str "UNTIL=") (encodeFields f) = false := by
      unfold containsKey
      rw [htoE _ _ (by decide) (by decide) (by decide) (by decide) (by decide)
        (by decide) (by decide)]
      rw [scanFor_none_of_noHit _ _ (noHit_endSuffix_never f _ _ [] het)]
      rfl
    simp [decodeRRule, h0, hFDn, hFW, hInt, hBD, hBDf, hSD, hBM, hC, hU, het]
  | count =>
    have hC : containsKey (str "COUNT=") (encodeFields f) = true := by
      unfold containsKey
      rw [htoE _ _ (by decide) (by decide) (by decide) (by decide) (by decide)
        (by decide) (by decide)]
      have h := endSuffix_count_contains f het
      unfold containsKey at h
      exact h
    have hCd : findKeyDigits (str "COUNT=") (encodeFields f) = some f.endCount := by
      unfold findKeyDigits
      rw [htoE _ _ (by decide) (by decide) (by decide) (by decide) (by decide)
        (by decide) (by decide)]
      have h := endSuffix_count_digits f het
      unfold findKeyDigits at h
      exact h
    have hU : containsKey (str "UNTIL=") (encodeFields f) = false := by
      unfold containsKey
      rw [htoE _ _ (by decide) (by decide) (by decide) (by decide) (by decide)
        (by decide) (by decide)]
      rw [scanFor_none_of_noHit _ _ (noHit_endSuffix_count f _ _ [] het
        (by decide) (by decide) (by decide) (by decide))]
      rfl
    simp [decodeRRule, h0, hFDn, hFW, hInt, hBD, hBDf, hSD, hBM, hC, hCd, hU, het]
  | untilD =>
    obtain ⟨hy1, hy2, hvd⟩ := hunt het
    have hU : containsKey (str "UNTIL=") (encodeFields f) = true := by
      unfold containsKey
      rw [htoE _ _ (by decide) (by decide) (by decide) (by decide) (by decide)
        (by decide) (by decide)]
      have h := endSuffix_until_contains f het
      unfold containsKey at h
      exact h
    have hUf : findUntil (encodeFields f)
        = some (f.endDate.year, f.endDate.month, f.endDate.day) := by
      unfold findUntil
      rw [htoE _ _ (by decide) (by decide) (by decide) (by decide) (by decide)
        (by decide) (by decide)]
      have h := endSuffix_until_find f het hy1 hy2 hvd
      unfold findUntil at h
      exact h
    have hC : containsKey (str "COUNT=") (encodeFields f) = false := by
      unfold containsKey
      rw [htoE _ _ (by decide) (by decide) (by decide) (by decide) (by decide)
        (by decide) (by decide)]
      rw [scanFor_none_of_noHit _ _ (noHit_endSuffix_until f _ _ [] het
        (by decide) (by decide) (by decide) (by decide) (by decide))]
      rfl
    have hPU : parseUntilDate today (encodeFields f) = f.endDate := by
      unfold parseUntilDate
      rw [if_pos hU, hUf]
      obtain ⟨hm1, hm2, hd1, hd2⟩ := hvd
      show dateUTC f.endDate.year ((f.endDate.month : Int) - 1) f.endDate.day
        = f.endDate
      rw [dateUTC_valid f.endDate.year f.endDate.month f.endDate.day hm1 hm2 hd1 hd2]
    simp [decodeRRule, h0, hFDn, hFW, hInt, hBD, hBDf, hSD, hBM, hC, hU, hPU, het]

/-! ## Theorems: decoding an encoded monthly rule -/

theorem encodeFields_monthly (f : FormFields) (hm : f.recurrenceType = .monthly) :
    encodeFields f = str "FREQ=MONTHLY" ++ (str ";" ++ (str "INTERVAL="
      ++ (natDigits f.interval ++ (str ";" ++ (str "BYMONTHDAY="
        ++ (natDigits f.monthDay ++ encodeEndSuffix f)))))) := by
  unfold encodeFields encodeBase
  rw [hm]
  simp [List.append_assoc]

theorem decodeRRule_encode_monthly (today : UTCDate) (asd : Nat) (ae : UTCDate)
    (f : FormFields) (hf : ValidFields f) (hm : f.recurrenceType = .monthly) :
    decodeRRule today asd ae (encodeFields f)
      = some { recurrenceType := .monthly, interval := f.interval,
               selectedDays := [str "MO"], monthDay := f.monthDay,
               endType := f.endType,
               endCount := if f.endType = .count then f.endCount else 10,
               endDate := if f.endType = .untilD then f.endDate else ae } := by
  obtain ⟨-, hi, -, -, hcnt, hunt⟩ := hf
  have hEq := encodeFields_monthly f hm
  have h0 : (encodeFields f).isEmpty = false := by
    rw [hEq]
    rfl
  have hFDn : containsKey (str "FREQ=DAILY") (encodeFields f) = false := by
    rw [hEq]
    unfold containsKey
    rw [scanFor_skip_clean _ _ _ _ (by decide), scanFor_skip_clean _ _ _ _ (by decide),
      scanFor_skip_clean _ _ _ _ (by decide),
      scanFor_skip_digits _ _ _ _ (natDigits_all_digits _) (by decide) (by decide),
      scanFor_skip_clean _ _ _ _ (by decide), scanFor_skip_clean _ _ _ _ (by decide),
      scanFor_skip_digits _ _ _ _ (natDigits_all_digits _) (by decide) (by decide)]
    rw [scanFor_none_of_noHit _ _ (noHit_endSuffix f _ _ []
      (by decide) (by decide) (by decide) (by decide) (by decide) (by decide))]
    rfl
  have hFWn : containsKey (str "FREQ=WEEKLY") (encodeFields f) = false := by
    rw [hEq]
    unfold containsKey
    rw [scanFor_skip_clean _ _ _ _ (by decide), scanFor_skip_clean _ _ _ _ (by decide),
      scanFor_skip_clean _ _ _ _ (by decide),
      scanFor_skip_digits _ _ _ _ (natDigits_all_digits _) (by decide) (by decide),
      scanFor_skip_clean _ _ _ _ (by decide), scanFor_skip_clean _ _ _ _ (by decide),
      scanFor_skip_digits _ _ _ _ (natDigits_all_digits _) (by decide) (by decide)]
    rw [scanFor_none_of_noHit _ _ (noHit_endSuffix f _ _ []
      (by decide) (by decide) (by decide) (by decide) (by decide) (by decide))]
    rfl
  have hFM : containsKey (str "FREQ=MONTHLY") (encodeFields f) = true := by
    rw [hEq]
    unfold containsKey
    rw [scanFor_keyHit (str "FREQ=MONTHLY") _ _ () (by decide) rfl]
    rfl
  have hInt : findKeyDigits (str "INTERVAL=") (encodeFields f) = some f.interval := by
    rw [hEq]
    unfold findKeyDigits
    rw [scanFor_skip_clean _ _ _ _ (by decide), scanFor_skip_clean _ _ _ _ (by decide)]
    rw [scanFor_keyHit (str "INTERVAL=") _ _ f.interval (by decide) ?_]
    show (let ds := takeDigits (natDigits f.interval ++ (str ";" ++ (str "BYMONTHDAY="
        ++ (natDigits f.monthDay ++ encodeEndSuffix f))));
      if ds.isEmpty then none else some (digitsToNat ds)) = some f.interval
    rw [show takeDigits (natDigits f.interval ++ (str ";" ++ (str "BYMONTHDAY="
          ++ (natDigits f.monthDay ++ encodeEndSuffix f))))
        = natDigits f.interval from
      takeDigits_digits_append _ _ (natDigits_all_digits _)
        (Or.inr ⟨';', _, rfl, rfl⟩)]
    rw [if_neg (by simp [natDigits_ne_nil])]
    rw [digitsToNat_natDigits]
  have hBD : containsKey (str "BYDAY=") (encodeFields f) = false := by
    rw [hEq]
    unfold containsKey
    rw [scanFor_skip_clean _ _ _ _ (by decide), scanFor_skip_clean _ _ _ _ (by decide),
      scanFor_skip_clean _ _ _ _ (by decide),
      scanFor_skip_digits _ _ _ _ (natDigits_all_digits _) (by decide) (by decide),
      scanFor_skip_clean _ _ _ _ (by decide), scanFor_skip_clean _ _ _ _ (by decide),
      scanFor_skip_digits _ _ _ _ (natDigits_all_digits _) (by decide) (by decide)]
    rw [scanFor_none_of_noHit _ _ (noHit_endSuffix f _ _ []
      (by decide) (by decide) (by decide) (by decide) (by decide) (by decide))]
    rfl
  have hBM : containsKey (str "BYMONTHDAY=") (encodeFields f) = true := by
    rw [hEq]
    unfold containsKey
    rw [scanFor_skip_clean _ _ _ _ (by decide), scanFor_skip_clean _ _ _ _ (by decide),
      scanFor_skip_clean _ _ _ _ (by decide),
      scanFor_skip_digits _ _ _ _ (natDigits_all_digits _) (by decide) (by decide),
      scanFor_skip_clean _ _ _ _ (by decide)]
    rw [scanFor_keyHit (str "BYMONTHDAY=") _ _ () (by decide) rfl]
    rfl
  have hBMd : findKeyDigits (str "BYMONTHDAY=") (encodeFields f)
      = some f.monthDay := by
    rw [hEq]
    unfold findKeyDigits
    rw [scanFor_skip_clean _ _ _ _ (by decide), scanFor_skip_clean _ _ _ _ (by decide),
      scanFor_skip_clean _ _ _ _ (by decide),
      scanFor_skip_digits _ _ _ _ (natDigits_all_digits _) (by decide) (by decide),
      scanFor_skip_clean _ _ _ _ (by decide)]
    rw [scanFor_keyHit (str "BYMONTHDAY=") _ _ f.monthDay (by decide) ?_]
    show (let ds := takeDigits (natDigits f.monthDay ++ encodeEndSuffix f);
      if ds.isEmpty then none else some (digitsToNat ds)) = some f.monthDay
    rw [show takeDigits (natDigits f.monthDay ++ encodeEndSuffix f)
        = natDigits f.monthDay from
      takeDigits_digits_append _ _ (natDigits_all_digits _)
        (endSuffix_digitBound f)]
    rw [if_neg (by simp [natDigits_ne_nil])]
    rw [digitsToNat_natDigits]
  have htoE : ∀ {α : Type} (key : RText) (g : RText → Option α),
      cleanFor key (str "FREQ=MONTHLY") = true →
      cleanFor key (str ";") = true →
      cleanFor key (str "INTERVAL=") = true →
      cleanFor key (str "BYMONTHDAY=") = true →
      key ≠ [] → isDigitC (key.headD 'A') = false →
      scanFor (keyBind key g) (encodeFields f)
        = scanFor (keyBind key g) (encodeEndSuffix f) := by
    intro α key g h1 h2 h3 h4 hne hk
    rw [hEq, scanFor_skip_clean _ _ _ _ h1, scanFor_skip_clean _ _ _ _ h2,
      scanFor_skip_clean _ _ _ _ h3,
      scanFor_skip_digits _ _ _ _ (natDigits_all_digits _) hne hk,
      scanFor_skip_clean _ _ _ _ h2, scanFor_skip_clean _ _ _ _ h4,
      scanFor_skip_digits _ _ _ _ (natDigits_all_digits _) hne hk]
  cases het : f.endType with
  | never =>
    have hC : containsKey (str "COUNT=") (encodeFields f) = false := by
      unfold containsKey
      rw [htoE _ _ (by decide) (by decide) (by decide) (by decide) (by decide)
        (by decide)]
      rw [scanFor_none_of_noHit _ _ (noHit_endSuffix_never f _ _ [] het)]
      rfl
    have hU : containsKey (str "UNTIL=") (encodeFields f) = false := by
      unfold containsKey
      rw [htoE _ _ (by decide) (by decide) (by decide) (by decide) (by decide)
        (by decide)]
      rw [scanFor_none_of_noHit _ _ (noHit_endSuffix_never f _ _ [] het)]
      rfl
    simp [decodeRRule, h0, hFDn, hFWn, hFM, hInt, hBD, hBM, hBMd, hC, hU, het]
  | count =>
    have hC : containsKey (str "COUNT=") (encodeFields f) = true := by
      unfold containsKey
      rw [htoE _ _ (by decide) (by decide) (by decide) (by decide) (by decide)
        (by decide)]
      have h := endSuffix_count_contains f het
      unfold containsKey at h
      exact h
    have hCd : findKeyDigits (str "COUNT=") (encodeFields f) = some f.endCount := by
      unfold findKeyDigits
      rw [htoE _ _ (by decide) (by decide) (by decide) (by decide) (by decide)
        (by decide)]
      have h := endSuffix_count_digits f het
      unfold findKeyDigits at h
      exact h
    have hU : containsKey (str "UNTIL=") (encodeFields f) = false := by
      unfold containsKey
      rw [htoE _ _ (by decide) (by decide) (by decide) (by decide) (by decide)
        (by decide)]
      rw [scanFor_none_of_noHit _ _ (noHit_endSuffix_count f _ _ [] het
        (by decide) (by decide) (by decide) (by decide))]
      rfl
    simp [decodeRRule, h0, hFDn, hFWn, hFM, hInt, hBD, hBM, hBMd, hC, hCd, hU, het]
  | untilD =>
    obtain ⟨hy1, hy2, hvd⟩ := hunt het
    have hU : containsKey (str "UNTIL=") (encodeFields f) = true := by
      unfold containsKey
      rw [htoE _ _ (by decide) (by decide) (by decide) (by decide) (by decide)
        (by decide)]
      have h := endSuffix_until_contains f het
      unfold containsKey at h
      exact h
    have hUf : findUntil (encodeFields f)
        = some (f.endDate.year, f.endDate.month, f.endDate.day) := by
      unfold findUntil
      rw [htoE _ _ (by decide) (by decide) (by decide) (by decide) (by decide)
        (by decide)]
      have h := endSuffix_until_find f het hy1 hy2 hvd
      unfold findUntil at h
      exact h
    have hC : containsKey (str "COUNT=") (encodeFields f) = false := by
      unfold containsKey
      rw [htoE _ _ (by decide) (by decide) (by decide) (by decide) (by decide)
        (by decide)]
      rw [scanFor_none_of_noHit _ _ (noHit_endSuffix_until f _ _ [] het
        (by decide) (by decide) (by decide) (by decide) (by decide))]
      rfl
    have hPU : parseUntilDate today (encodeFields f) = f.endDate := by
      unfold parseUntilDate
      rw [if_pos hU, hUf]
      obtain ⟨hm1, hm2, hd1, hd2⟩ := hvd
      show dateUTC f.endDate.year ((f.endDate.month : Int) - 1) f.endDate.day
        = f.endDate
      rw [dateUTC_valid f.endDate.year f.endDate.month f.endDate.day hm1 hm2 hd1 hd2]
    simp [decodeRRule, h0, hFDn, hFWn, hFM, hInt, hBD, hBM, hBMd, hC, hU, hPU, het]

/-! ## Claim C1 -/

/-- C1: for every canonical recurrence-rule text — one produced by the
schedule form's own encoders from valid form fields (daily, weekly or
monthly frequency, positive interval, weekday codes from the chip set,
month-day 1–31, end condition never / count ≥ 1 / a valid until date) —
decoding the text into form fields with `handleOpenForm`'s logic and
re-encoding those fields reproduces the original text:
encode(decode(text)) = text. -/
theorem claim_C1_roundtrip (today ae : UTCDate) (asd : Nat) (f : FormFields)
    (hf : ValidFields f) :
    (decodeRRule today asd ae (encodeFields f)).map encodeFields
      = some (encodeFields f) := by
  rcases hf.1 with hd | hw | hm
  · rw [decodeRRule_encode_daily today asd ae f hf hd]
    cases het : f.endType <;>
      simp [encodeFields, encodeBase, encodeEndSuffix, hd, het]
  · rw [decodeRRule_encode_weekly today asd ae f hf hw]
    cases het : f.endType <;>
      simp [encodeFields, encodeBase, encodeEndSuffix, hw, het]
  · rw [decodeRRule_encode_monthly today asd ae f hf hm]
    cases het : f.endType <;>
      simp [encodeFields, encodeBase, encodeEndSuffix, hm, het]

theorem claim_C1_roundtrip_witness :
    (ValidFields fC1w ∧ ValidFields fC1m) ∧
    ((decodeRRule ⟨2024, 1, 1⟩ 1 ⟨2024, 1, 1⟩ (encodeFields fC1w)).map
        encodeFields = some (encodeFields fC1w) ∧
      (decodeRRule ⟨2024, 1, 1⟩ 1 ⟨2024, 1, 1⟩ (encodeFields fC1m)).map
        encodeFields = some (encodeFields fC1m)) :=
  ⟨⟨by decide, by decide⟩,
    claim_C1_roundtrip ⟨2024, 1, 1⟩ ⟨2024, 1, 1⟩ 1 fC1w (by decide),
    claim_C1_roundtrip ⟨2024, 1, 1⟩ ⟨2024, 1, 1⟩ 1 fC1m (by decide)⟩

/-! ## Claim C6 -/

/-- C6: `parseUntilDate` falls back to `today` (it never fails) whenever
the `UNTIL=` token is absent or its value does not match the
`\d{8}T\d{6}Z` shape; when the token is well-formed and encodes a real
calendar date `y-mo-da`, it returns exactly that UTC date. -/
theorem claim_C6_until_fallback (today : UTCDate) (s : RText) :
    (containsKey (str "UNTIL=") s = false → parseUntilDate today s = today) ∧
    (findUntil s = none → parseUntilDate today s = today) ∧
    (∀ y mo da, findUntil s = some (y, mo, da) → 1 ≤ mo → mo ≤ 12 →
      1 ≤ da → da ≤ daysInMonth y mo → parseUntilDate today s = ⟨y, mo, da⟩) := by
  refine ⟨fun h => ?_, fun h => ?_, fun y mo da h h1 h2 h3 h4 => ?_⟩
  · simp [parseUntilDate, h]
  · by_cases hc : containsKey (str "UNTIL=") s
    · simp [parseUntilDate, hc, h]
    · simp [parseUntilDate, hc]
  · have hc : containsKey (str "UNTIL=") s = true :=
      containsKey_of_scanFor_some _ _ _ _ h
    unfold parseUntilDate
    rw [if_pos hc, h]
    show dateUTC y ((mo : Int) - 1) da = ⟨y, mo, da⟩
    exact dateUTC_valid y mo da h1 h2 h3 h4

theorem claim_C6_until_fallback_witness :
    (containsKey (str "UNTIL=") (str "FREQ=DAILY;INTERVAL=2") = false ∧
      parseUntilDate ⟨2025, 6, 1⟩ (str "FREQ=DAILY;INTERVAL=2")
        = ⟨2025, 6, 1⟩) ∧
    (findUntil (str "FREQ=DAILY;UNTIL=2024T000000Z") = none ∧
      parseUntilDate ⟨2025, 6, 1⟩ (str "FREQ=DAILY;UNTIL=2024T000000Z")
        = ⟨2025, 6, 1⟩) ∧
    (findUntil (str "FREQ=DAILY;INTERVAL=1;UNTIL=20240331T000000Z")
        = some (2024, 3, 31) ∧
      parseUntilDate ⟨2025, 6, 1⟩
          (str "FREQ=DAILY;INTERVAL=1;UNTIL=20240331T000000Z")
        = ⟨2024, 3, 31⟩) :=
  ⟨⟨by decide,
    (claim_C6_until_fallback ⟨2025, 6, 1⟩ (str "FREQ=DAILY;INTERVAL=2")).1
      (by decide)⟩,
   ⟨by decide,
    (claim_C6_until_fallback ⟨2025, 6, 1⟩
        (str "FREQ=DAILY;UNTIL=2024T000000Z")).2.1 (by decide)⟩,
   ⟨by decide,
    (claim_C6_until_fallback ⟨2025, 6, 1⟩
        (str "FREQ=DAILY;INTERVAL=1;UNTIL=20240331T000000Z")).2.2
      2024 3 31 (by decide) (by decide) (by decide) (by decide) (by decide)⟩⟩

/-! ## Theorems: the end-type radio handler (strip and re-append) -/

theorem dropFirstMatch_hit (m : RText → Option Nat) (c : Char) (s : RText)
    (len : Nat) (h : m (c :: s) = some len) :
    dropFirstMatch m (c :: s) = (c :: s).drop len := by
  show (match m (c :: s) with
    | some len => (c :: s).drop len
    | none => c :: dropFirstMatch m s) = (c :: s).drop len
  rw [h]

theorem drop_all_append {α : Type} (a b : List α) (n : Nat)
    (hn : n = a.length + b.length) : (a ++ b).drop n = [] := by
  subst hn
  rw [← List.length_append]
  exact List.drop_length _

theorem countCap_eval (A : RText) (hA : ∀ c ∈ A, isDigitC c = true)
    (hne : A ≠ []) : countCap A = some (7 + A.length) := by
  unfold countCap
  rw [show takeDigits A = A from takeDigits_of_all A hA]
  rw [if_neg (by simp [hne])]

theorem untilCap_eval (A : RText) (hA : ∀ c ∈ A, isDigitC c = true)
    (hne : A ≠ []) :
    untilCap (A ++ str "T000000Z") = some (7 + A.length + 1 + 6 + 1) := by
  unfold untilCap
  rw [show takeDigits (A ++ str "T000000Z") = A from
    takeDigits_digits_append _ _ hA (Or.inr ⟨'T', _, rfl, rfl⟩)]
  rw [if_neg (by simp [hne])]
  rw [drop_len_append]
  show (let d2 := takeDigits (str "000000Z");
    if d2.isEmpty then none
    else
      match (str "000000Z").drop d2.length with
      | 'Z' :: _ => some (7 + A.length + 1 + d2.length + 1)
      | _ => none) = some (7 + A.length + 1 + 6 + 1)
  rw [show takeDigits (str "000000Z") = str "000000" from rfl]
  rw [if_neg (by decide)]
  rw [show (str "000000Z").drop (str "000000").length = str "Z" from rfl]
  show some (7 + A.length + 1 + (str "000000").length + 1)
    = some (7 + A.length + 1 + 6 + 1)
  rfl

theorem noHit_base_semiKey {α : Type} (f : FormFields) (key : RText)
    (g : RText → Option α) (s : RText)
    (hrt : f.recurrenceType = .daily ∨ f.recurrenceType = .weekly ∨
      f.recurrenceType = .monthly)
    (hwk : f.recurrenceType = .weekly →
      f.selectedDays ≠ [] ∧ ∀ d ∈ f.selectedDays, d ∈ dayCodes)
    (h1 : cleanFor key (str "FREQ=DAILY") = true)
    (h2 : cleanFor key (str "FREQ=WEEKLY") = true)
    (h3 : cleanFor key (str "FREQ=MONTHLY") = true)
    (h4 : cleanFor key (str ";INTERVAL=") = true)
    (h5 : cleanFor key (str ";BYDAY=") = true)
    (h6 : cleanFor key (str ";BYMONTHDAY=") = true)
    (hcc : codeClean key = true)
    (hne : key ≠ []) (hk : isDigitC (key.headD 'A') = false)
    (hsb : SepBound s) :
    NoHit (keyBind key g) (encodeBase f) s := by
  rcases hrt with hd | hw | hm
  · have hEq : encodeBase f
        = str "FREQ=DAILY" ++ (str ";INTERVAL=" ++ natDigits f.interval) := by
      unfold encodeBase
      rw [hd]
      rfl
    rw [hEq]
    refine noHit_append _ _ _ _ (noHit_keyBind_of_clean _ _ _ _ h1) ?_
    exact noHit_append _ _ _ _ (noHit_keyBind_of_clean _ _ _ _ h4)
      (noHit_keyBind_digits _ _ _ _ (natDigits_all_digits _) hne hk)
  · obtain ⟨-, hdays⟩ := hwk hw
    have hEq : encodeBase f
        = str "FREQ=WEEKLY" ++ (str ";INTERVAL=" ++ (natDigits f.interval
          ++ (str ";BYDAY=" ++ joinComma f.selectedDays))) := by
      unfold encodeBase
      rw [hw]
      rfl
    rw [hEq]
    refine noHit_append _ _ _ _ (noHit_keyBind_of_clean _ _ _ _ h2) ?_
    refine noHit_append _ _ _ _ (noHit_keyBind_of_clean _ _ _ _ h4) ?_
    refine noHit_append _ _ _ _
      (noHit_keyBind_digits _ _ _ _ (natDigits_all_digits _) hne hk) ?_
    refine noHit_append _ _ _ _ (noHit_keyBind_of_clean _ _ _ _ h5) ?_
    exact noHit_keyBind_joinComma _ _ _ _ hdays hcc hsb
  · have hEq : encodeBase f
        = str "FREQ=MONTHLY" ++ (str ";INTERVAL=" ++ (natDigits f.interval
          ++ (str ";BYMONTHDAY=" ++ natDigits f.monthDay))) := by
      unfold encodeBase
      rw [hm]
      rfl
    rw [hEq]
    refine noHit_append _ _ _ _ (noHit_keyBind_of_clean _ _ _ _ h3) ?_
    refine noHit_append _ _ _ _ (noHit_keyBind_of_clean _ _ _ _ h4) ?_
    refine noHit_append _ _ _ _
      (noHit_keyBind_digits _ _ _ _ (natDigits_all_digits _) hne hk) ?_
    refine noHit_append _ _ _ _ (noHit_keyBind_of_clean _ _ _ _ h6) ?_
    exact noHit_keyBind_digits _ _ _ _ (natDigits_all_digits _) hne hk

theorem noHit_countMatcher_untilSuffix (d : UTCDate) (s : RText) :
    NoHit countMatcher (str ";" ++ (str "UNTIL=" ++ encodeUntilToken d)) s := by
  show NoHit countMatcher (str ";UNTIL=" ++ (natDigits d.year ++ pad2 d.month
    ++ pad2 d.day ++ str "T000000Z")) s
  unfold countMatcher
  refine noHit_append _ _ _ _ (noHit_keyBind_of_clean _ _ _ _ (by decide)) ?_
  exact noHit_append _ _ _ _
    (noHit_keyBind_digits _ _ _ _ (untilToken_digits d) (by decide) (by decide))
    (noHit_keyBind_of_clean _ _ _ _ (by decide))

theorem dropCount_countSuffix (n : Nat) :
    dropFirstMatch countMatcher (str ";" ++ (str "COUNT=" ++ natDigits n))
      = [] := by
  have hm : countMatcher (';' :: (str "COUNT=" ++ natDigits n))
      = some (7 + (natDigits n).length) := by
    show countMatcher (str ";COUNT=" ++ natDigits n) = _
    unfold countMatcher
    rw [keyBind_self_append]
    exact countCap_eval _ (natDigits_all_digits n) (natDigits_ne_nil n)
  show dropFirstMatch countMatcher (';' :: (str "COUNT=" ++ natDigits n)) = []
  rw [dropFirstMatch_hit countMatcher ';' _ _ hm]
  show (str ";COUNT=" ++ natDigits n).drop (7 + (natDigits n).length) = []
  exact drop_all_append _ _ _ rfl

theorem dropUntil_untilSuffix (d : UTCDate) :
    dropFirstMatch untilMatcher (str ";" ++ (str "UNTIL=" ++ encodeUntilToken d))
      = [] := by
  have hm : untilMatcher (';' :: (str "UNTIL=" ++ encodeUntilToken d))
      = some (7 + (natDigits d.year ++ pad2 d.month ++ pad2 d.day).length
          + 1 + 6 + 1) := by
    show untilMatcher (str ";UNTIL=" ++ (natDigits d.year ++ pad2 d.month
      ++ pad2 d.day ++ str "T000000Z")) = _
    unfold untilMatcher
    rw [keyBind_self_append]
    exact untilCap_eval _ (untilToken_digits d)
      (by simp [natDigits_ne_nil])
  show dropFirstMatch untilMatcher (';' :: (str "UNTIL=" ++ encodeUntilToken d))
    = []
  rw [dropFirstMatch_hit untilMatcher ';' _ _ hm]
  show (str ";UNTIL=" ++ (natDigits d.year ++ pad2 d.month ++ pad2 d.day
    ++ str "T000000Z")).drop (7 + (natDigits d.year ++ pad2 d.month
      ++ pad2 d.day).length + 1 + 6 + 1) = []
  refine drop_all_append _ _ _ ?_
  have h7 : (str ";UNTIL=").length = 7 := rfl
  have h8 : (str "T000000Z").length = 8 := rfl
  simp only [List.length_append, h7, h8]
  omega

/-- The end-type radio handler's strip step, on a canonical rule text:
deleting the first `;COUNT=\d+` and `;UNTIL=\d+T\d+Z` matches leaves
exactly the base `FREQ/INTERVAL[/BYDAY|/BYMONTHDAY]` text. -/
theorem strip_end_tokens (f : FormFields) (hf : ValidFields f) :
    dropFirstMatch untilMatcher (dropFirstMatch countMatcher (encodeFields f))
      = encodeBase f := by
  obtain ⟨hrt, -, hwk, -, -, -⟩ := hf
  have hbC : ∀ s, SepBound s → NoHit countMatcher (encodeBase f) s :=
    fun s hs => noHit_base_semiKey f _ countCap s hrt hwk (by decide) (by decide)
      (by decide) (by decide) (by decide) (by decide) (by decide) (by decide)
      (by decide) hs
  have hbU : ∀ s, SepBound s → NoHit untilMatcher (encodeBase f) s :=
    fun s hs => noHit_base_semiKey f _ untilCap s hrt hwk (by decide) (by decide)
      (by decide) (by decide) (by decide) (by decide) (by decide) (by decide)
      (by decide) hs
  cases het : f.endType with
  | never =>
    show dropFirstMatch untilMatcher (dropFirstMatch countMatcher
      (encodeBase f ++ encodeEndSuffix f)) = encodeBase f
    rw [endSuffix_never f het, List.append_nil]
    rw [dropFirstMatch_eq_self_of_noHit _ _ (hbC [] (Or.inl rfl))]
    rw [dropFirstMatch_eq_self_of_noHit _ _ (hbU [] (Or.inl rfl))]
  | count =>
    show dropFirstMatch untilMatcher (dropFirstMatch countMatcher
      (encodeBase f ++ encodeEndSuffix f)) = encodeBase f
    rw [endSuffix_count_eq f het]
    have hsb1 : SepBound (str ";" ++ (str "COUNT=" ++ natDigits f.endCount)) :=
      Or.inr ⟨';', str "COUNT=" ++ natDigits f.endCount, rfl, Or.inr (by decide)⟩
    rw [dropFirstMatch_append_of_noHit countMatcher _ _ (hbC _ hsb1)]
    rw [dropCount_countSuffix, List.append_nil]
    rw [dropFirstMatch_eq_self_of_noHit _ _ (hbU [] (Or.inl rfl))]
  | untilD =>
    show dropFirstMatch untilMatcher (dropFirstMatch countMatcher
      (encodeBase f ++ encodeEndSuffix f)) = encodeBase f
    rw [endSuffix_until_eq f het]
    have hsb2 : SepBound (str ";" ++ (str "UNTIL=" ++ encodeUntilToken f.endDate)) :=
      Or.inr ⟨';', str "UNTIL=" ++ encodeUntilToken f.endDate, rfl,
        Or.inr (by decide)⟩
    rw [dropFirstMatch_append_of_noHit countMatcher _ _ (hbC _ hsb2)]
    rw [dropFirstMatch_eq_self_of_noHit _ _
      (noHit_countMatcher_untilSuffix f.endDate [])]
    rw [dropFirstMatch_append_of_noHit untilMatcher _ _ (hbU _ hsb2)]
    rw [dropUntil_untilSuffix, List.append_nil]

theorem scanFor_base_toSuffix {α : Type} (f : FormFields) (key : RText)
    (g : RText → Option α) (s : RText)
    (hrt : f.recurrenceType = .daily ∨ f.recurrenceType = .weekly ∨
      f.recurrenceType = .monthly)
    (hwk : f.recurrenceType = .weekly →
      f.selectedDays ≠ [] ∧ ∀ d ∈ f.selectedDays, d ∈ dayCodes)
    (h1 : cleanFor key (str "FREQ=DAILY") = true)
    (h2 : cleanFor key (str "FREQ=WEEKLY") = true)
    (h3 : cleanFor key (str "FREQ=MONTHLY") = true)
    (h4 : cleanFor key (str ";") = true)
    (h5 : cleanFor key (str "INTERVAL=") = true)
    (h6 : cleanFor key (str "BYDAY=") = true)
    (h7 : cleanFor key (str "BYMONTHDAY=") = true)
    (hcc : codeClean key = true)
    (hne : key ≠ []) (hk : isDigitC (key.headD 'A') = false)
    (hsb : SepBound s) :
    scanFor (keyBind key g) (encodeBase f ++ s) = scanFor (keyBind key g) s := by
  rcases hrt with hd | hw | hm
  · have hEq : encodeBase f ++ s = str "FREQ=DAILY" ++ (str ";"
        ++ (str "INTERVAL=" ++ (natDigits f.interval ++ s))) := by
      unfold encodeBase
      rw [hd]
      simp [List.append_assoc]
    rw [hEq, scanFor_skip_clean _ _ _ _ h1, scanFor_skip_clean _ _ _ _ h4,
      scanFor_skip_clean _ _ _ _ h5,
      scanFor_skip_digits _ _ _ _ (natDigits_all_digits _) hne hk]
  · obtain ⟨-, hdays⟩ := hwk hw
    have hEq : encodeBase f ++ s = str "FREQ=WEEKLY" ++ (str ";"
        ++ (str "INTERVAL=" ++ (natDigits f.interval ++ (str ";"
          ++ (str "BYDAY=" ++ (joinComma f.selectedDays ++ s)))))) := by
      unfold encodeBase
      rw [hw]
      simp [List.append_assoc]
    rw [hEq, scanFor_skip_clean _ _ _ _ h2, scanFor_skip_clean _ _ _ _ h4,
      scanFor_skip_clean _ _ _ _ h5,
      scanFor_skip_digits _ _ _ _ (natDigits_all_digits _) hne hk,
      scanFor_skip_clean _ _ _ _ h4, scanFor_skip_clean _ _ _ _ h6,
      scanFor_skip_days _ _ _ _ hdays hcc hsb]
  · have hEq : encodeBase f ++ s = str "FREQ=MONTHLY" ++ (str ";"
        ++ (str "INTERVAL=" ++ (natDigits f.interval ++ (str ";"
          ++ (str "BYMONTHDAY=" ++ (natDigits f.monthDay ++ s)))))) := by
      unfold encodeBase
      rw [hm]
      simp [List.append_assoc]
    rw [hEq, scanFor_skip_clean _ _ _ _ h3, scanFor_skip_clean _ _ _ _ h4,
      scanFor_skip_clean _ _ _ _ h5,
      scanFor_skip_digits _ _ _ _ (natDigits_all_digits _) hne hk,
      scanFor_skip_clean _ _ _ _ h4, scanFor_skip_clean _ _ _ _ h7,
      scanFor_skip_digits _ _ _ _ (natDigits_all_digits _) hne hk]

/-! ## Claim C4 -/

/-- C4: each rule-building operation carries at most one end condition.
`RecurringClassForm.handleSubmit`'s options (`buildEndOpts`) keep `COUNT`
and drop `UNTIL` exactly when a positive count is supplied, and otherwise
keep only `UNTIL`; the options never hold both. The schedule form's
end-type radio handler (`endTypeOp`), run on a canonical rule text, strips
the old end tokens and appends at most one new one, so its output never
contains both a `COUNT=` and an `UNTIL=` token. -/
theorem claim_C4_single_end_condition (count : Option Nat) (untilTs : Nat)
    (f : FormFields) (hf : ValidFields f) (et : EndType) (cnt : Nat)
    (ed : Option UTCDate) :
    ((buildEndOpts count untilTs).1 = none
      ∨ (buildEndOpts count untilTs).2 = none) ∧
    (∀ c, count = some c → 0 < c → buildEndOpts count untilTs = (some c, none)) ∧
    ((count = none ∨ count = some 0)
      → buildEndOpts count untilTs = (none, some untilTs)) ∧
    (et = .count → cnt ≠ 0 →
      containsKey (str "COUNT=") (endTypeOp et cnt ed (encodeFields f)) = true ∧
      containsKey (str "UNTIL=") (endTypeOp et cnt ed (encodeFields f)) = false) ∧
    (∀ d, et = .untilD → ed = some d →
      containsKey (str "UNTIL=") (endTypeOp et cnt ed (encodeFields f)) = true ∧
      containsKey (str "COUNT=") (endTypeOp et cnt ed (encodeFields f)) = false) ∧
    (containsKey (str "COUNT=") (endTypeOp et cnt ed (encodeFields f)) = false
      ∨ containsKey (str "UNTIL=") (endTypeOp et cnt ed (encodeFields f))
        = false) := by
  have hrt := hf.1
  have hwk := hf.2.2.1
  have hstrip := strip_end_tokens f hf
  have hCb : ∀ s, SepBound s →
      containsKey (str "COUNT=") (encodeBase f ++ s)
        = containsKey (str "COUNT=") s := by
    intro s hs
    unfold containsKey
    rw [scanFor_base_toSuffix f _ _ s hrt hwk (by decide) (by decide) (by decide)
      (by decide) (by decide) (by decide) (by decide) (by decide) (by decide)
      (by decide) hs]
  have hUb : ∀ s, SepBound s →
      containsKey (str "UNTIL=") (encodeBase f ++ s)
        = containsKey (str "UNTIL=") s := by
    intro s hs
    unfold containsKey
    rw [scanFor_base_toSuffix f _ _ s hrt hwk (by decide) (by decide) (by decide)
      (by decide) (by decide) (by decide) (by decide) (by decide) (by decide)
      (by decide) hs]
  have hCbase : containsKey (str "COUNT=") (encodeBase f) = false := by
    have h := hCb [] (Or.inl rfl)
    rw [List.append_nil] at h
    rw [h]
    rfl
  have hUbase : containsKey (str "UNTIL=") (encodeBase f) = false := by
    have h := hUb [] (Or.inl rfl)
    rw [List.append_nil] at h
    rw [h]
    rfl
  have hsbC : SepBound (str ";COUNT=" ++ natDigits cnt) :=
    Or.inr ⟨';', str "COUNT=" ++ natDigits cnt, rfl, Or.inr (by decide)⟩
  have hsbU : ∀ d : UTCDate, SepBound (str ";UNTIL=" ++ encodeUntilToken d) :=
    fun d => Or.inr ⟨';', str "UNTIL=" ++ encodeUntilToken d, rfl,
      Or.inr (by decide)⟩
  have hcountSuf : containsKey (str "COUNT=") (str ";COUNT=" ++ natDigits cnt)
      = true := by
    show containsKey (str "COUNT=") (str ";" ++ (str "COUNT=" ++ natDigits cnt))
      = true
    unfold containsKey
    rw [scanFor_skip_clean _ _ _ _ (by decide)]
    rw [scanFor_keyHit (str "COUNT=") _ _ () (by decide) rfl]
    rfl
  have huntilSufC : containsKey (str "UNTIL=") (str ";COUNT=" ++ natDigits cnt)
      = false := by
    show containsKey (str "UNTIL=") (str ";" ++ (str "COUNT=" ++ natDigits cnt))
      = false
    unfold containsKey
    rw [scanFor_skip_clean _ _ _ _ (by decide), scanFor_skip_clean _ _ _ _
      (by decide)]
    rw [scanFor_none_of_noHit _ _ (noHit_keyBind_digits _ _ _ []
      (natDigits_all_digits _) (by decide) (by decide))]
    rfl
  have huntilSufU : ∀ d : UTCDate,
      containsKey (str "UNTIL=") (str ";UNTIL=" ++ encodeUntilToken d)
        = true := by
    intro d
    show containsKey (str "UNTIL=")
      (str ";" ++ (str "UNTIL=" ++ encodeUntilToken d)) = true
    unfold containsKey
    rw [scanFor_skip_clean _ _ _ _ (by decide)]
    rw [scanFor_keyHit (str "UNTIL=") _ _ () (by decide) rfl]
    rfl
  have hcountSufU : ∀ d : UTCDate,
      containsKey (str "COUNT=") (str ";UNTIL=" ++ encodeUntilToken d)
        = false := by
    intro d
    show containsKey (str "COUNT=") (str ";" ++ (str "UNTIL="
      ++ (natDigits d.year ++ pad2 d.month ++ pad2 d.day ++ str "T000000Z")))
      = false
    unfold containsKey
    rw [scanFor_skip_clean _ _ _ _ (by decide), scanFor_skip_clean _ _ _ _
      (by decide),
      scanFor_skip_digits _ _ _ _ (untilToken_digits d) (by decide) (by decide)]
    rw [scanFor_none_of_noHit _ _ (noHit_keyBind_of_clean _ _ [] _ (by decide))]
    rfl
  have hop_count : cnt ≠ 0 → endTypeOp .count cnt ed (encodeFields f)
      = encodeBase f ++ str ";COUNT=" ++ natDigits cnt := by
    intro h
    unfold endTypeOp
    rw [hstrip]
    show (if cnt ≠ 0 then encodeBase f ++ str ";COUNT=" ++ natDigits cnt
      else encodeBase f) = encodeBase f ++ str ";COUNT=" ++ natDigits cnt
    rw [if_pos h]
  have hop_count0 : cnt = 0 → endTypeOp .count cnt ed (encodeFields f)
      = encodeBase f := by
    intro h
    unfold endTypeOp
    rw [hstrip]
    show (if cnt ≠ 0 then encodeBase f ++ str ";COUNT=" ++ natDigits cnt
      else encodeBase f) = encodeBase f
    rw [if_neg (by simp [h])]
  have hop_never : endTypeOp .never cnt ed (encodeFields f) = encodeBase f := by
    unfold endTypeOp
    rw [hstrip]
  have hop_until : ∀ d, ed = some d →
      endTypeOp .untilD cnt ed (encodeFields f)
        = encodeBase f ++ str ";UNTIL=" ++ encodeUntilToken d := by
    intro d hed
    subst hed
    unfold endTypeOp
    rw [hstrip]
  have hop_until_none : ed = none →
      endTypeOp .untilD cnt ed (encodeFields f) = encodeBase f := by
    intro hed
    subst hed
    unfold endTypeOp
    rw [hstrip]
  refine ⟨?_, ?_, ?_, ?_, ?_, ?_⟩
  · cases count with
    | none => exact Or.inl rfl
    | some c =>
      by_cases hc : 0 < c
      · exact Or.inr (by simp [buildEndOpts, hc])
      · exact Or.inl (by simp [buildEndOpts, hc])
  · intro c hc hpos
    subst hc
    unfold buildEndOpts
    show (if 0 < c then ((some c, none) : Option Nat × Option Nat)
      else (none, some untilTs)) = (some c, none)
    exact if_pos hpos
  · intro hc
    rcases hc with rfl | rfl
    · rfl
    · unfold buildEndOpts
      show (if 0 < 0 then ((some 0, none) : Option Nat × Option Nat)
        else (none, some untilTs)) = (none, some untilTs)
      exact if_neg (by omega)
  · intro het hcnt
    subst het
    rw [hop_count hcnt, List.append_assoc, hCb _ hsbC, hUb _ hsbC]
    exact ⟨hcountSuf, huntilSufC⟩
  · intro d het hed
    subst het
    rw [hop_until d hed, List.append_assoc, hCb _ (hsbU d), hUb _ (hsbU d)]
    exact ⟨huntilSufU d, hcountSufU d⟩
  · cases et with
    | never =>
      rw [hop_never]
      exact Or.inl hCbase
    | count =>
      by_cases hc : cnt = 0
      · rw [hop_count0 hc]
        exact Or.inl hCbase
      · rw [hop_count hc, List.append_assoc, hUb _ hsbC]
        exact Or.inr huntilSufC
    | untilD =>
      cases hed : ed with
      | none =>
        have h := hop_until_none hed
        rw [hed] at h
        rw [h]
        exact Or.inl hCbase
      | some d =>
        have h := hop_until d hed
        rw [hed] at h
        rw [h, List.append_assoc, hCb _ (hsbU d)]
        exact Or.inl (hcountSufU d)

theorem claim_C4_single_end_condition_witness :
    ValidFields fC1w ∧
    (containsKey (str "COUNT=")
        (endTypeOp .count 6 (some ⟨2024, 3, 31⟩) (encodeFields fC1w)) = true ∧
      containsKey (str "UNTIL=")
        (endTypeOp .count 6 (some ⟨2024, 3, 31⟩) (encodeFields fC1w)) = false) ∧
    buildEndOpts (some 5) 777 = (some 5, none) :=
  ⟨by decide,
   (claim_C4_single_end_condition (some 5) 777 fC1w (by decide) .count 6
       (some ⟨2024, 3, 31⟩)).2.2.2.1 rfl (by decide),
   (claim_C4_single_end_condition (some 5) 777 fC1w (by decide) .count 6
       (some ⟨2024, 3, 31⟩)).2.1 5 rfl (by decide)⟩

/-! ## Claim C7 -/

/-- C7 counterexample: `RecurringClassForm.handleWeekdayToggle` empties the
weekday set when the only selected weekday is toggled off — that handler
has no default-to-Monday guard, so the claimed invariant fails for one of
its two cited sources. -/
theorem claim_C7_toggle_nonempty_cex : handleWeekdayToggle [0] 0 = [] := by
  decide

/-- C7 (amended): the schedule form's weekday chip (`chipToggle`) does
preserve non-emptiness, defaulting to `['MO']` when the last selected day
is removed; `RecurringClassForm.handleWeekdayToggle`, however, empties a
singleton set, and the resulting weekly form with no weekdays is rejected
by `handleSubmit`'s validation guard rather than expanded. -/
theorem claim_C7_toggle_nonempty_amended (days : List RText) (d : RText)
    (ws : List Nat) (w : Nat) (inp : SubmitInput) :
    chipToggle days d ≠ [] ∧
    (days = [d] → chipToggle days d = [str "MO"]) ∧
    (ws = [w] → handleWeekdayToggle ws w = []) ∧
    (inp.frequency = .weekly → inp.weekdays = [] →
      handleSubmit inp = .invalid) := by
  refine ⟨?_, ?_, ?_, ?_⟩
  · unfold chipToggle
    by_cases hc : days.contains d = true
    · rw [if_pos hc]
      show (if (days.filter (fun x => !(x == d))).isEmpty then [str "MO"]
        else days.filter (fun x => !(x == d))) ≠ []
      by_cases he : (days.filter (fun x => !(x == d))).isEmpty = true
      · rw [if_pos he]
        simp
      · rw [if_neg he]
        intro hnil
        exact he (by rw [hnil]; rfl)
    · rw [if_neg hc]
      simp
  · intro hd
    subst hd
    unfold chipToggle
    rw [if_pos (by simp)]
    show (if (([d] : List RText).filter (fun x => !(x == d))).isEmpty
      then [str "MO"] else ([d] : List RText).filter (fun x => !(x == d)))
      = [str "MO"]
    rw [if_pos (by simp)]
  · intro hws
    subst hws
    unfold handleWeekdayToggle
    rw [if_pos (by simp)]
    simp
  · intro hfr hwd
    cases hcid : inp.classId with
    | none =>
      unfold handleSubmit
      rw [hcid]
    | some cid =>
      cases hsd : inp.startDate with
      | none =>
        unfold handleSubmit
        rw [hcid, hsd]
      | some sd =>
        cases hed2 : inp.endDate with
        | none =>
          unfold handleSubmit
          rw [hcid, hsd, hed2]
        | some ed =>
          cases hst : inp.startTime with
          | none =>
            unfold handleSubmit
            rw [hcid, hsd, hed2, hst]
          | some st =>
            cases het2 : inp.endTime with
            | none =>
              unfold handleSubmit
              rw [hcid, hsd, hed2, hst, het2]
            | some et =>
              exact handleSubmit_invalid_weekly inp cid sd ed st et hcid hsd
                hed2 hst het2 ⟨hfr, hwd⟩

theorem claim_C7_toggle_nonempty_amended_witness :
    (chipToggle [str "TU"] (str "TU") ≠ [] ∧
      chipToggle [str "TU"] (str "TU") = [str "MO"]) ∧
    handleWeekdayToggle [3] 3 = [] ∧
    handleSubmit inpC7 = .invalid :=
  ⟨⟨(claim_C7_toggle_nonempty_amended [str "TU"] (str "TU") [3] 3 inpC7).1,
    (claim_C7_toggle_nonempty_amended [str "TU"] (str "TU") [3] 3 inpC7).2.1 rfl⟩,
   (claim_C7_toggle_nonempty_amended [str "TU"] (str "TU") [3] 3 inpC7).2.2.1 rfl,
   (claim_C7_toggle_nonempty_amended [str "TU"] (str "TU") [3] 3 inpC7).2.2.2
     rfl rfl⟩

/-! ## Claim C8 -/

/-- C8 counterexample: switching the schedule form's Repeat selector from
MONTHLY to WEEKLY keeps the old rule text untouched — the stale
`BYMONTHDAY=` token survives the switch (the handler deletes the rule only
when switching to 'none'). -/
theorem claim_C8_switch_clears_cex :
    (switchRecurrenceType fdMonthly .weekly).rRule
        = some (str "FREQ=MONTHLY;INTERVAL=1;BYMONTHDAY=15") ∧
    containsKey (str "BYMONTHDAY=")
        ((switchRecurrenceType fdMonthly .weekly).rRule.getD []) = true ∧
    (switchRecurrenceType fdMonthly .weekly).recurrenceType = .weekly := by
  decide

/-- C8 (amended): the Repeat selector's onChange deletes the rule text only
when switching to 'none'; switching to any other frequency changes
`recurrenceType` alone and keeps every other field — including a stale rule
text. `RecurringClassForm.handleFrequencyChange` does reset the weekday
set: `[Monday]` when switching to WEEKLY and empty otherwise. -/
theorem claim_C8_switch_clears_amended (fd : SchedFormData) (v : RecType)
    (fr : Freq) :
    (switchRecurrenceType fd .noneR).rRule = none ∧
    (v ≠ .noneR → switchRecurrenceType fd v = { fd with recurrenceType := v }) ∧
    (fr = .weekly → freqChangeWeekdays fr = [0]) ∧
    (fr ≠ .weekly → freqChangeWeekdays fr = []) := by
  refine ⟨rfl, ?_, ?_, ?_⟩
  · intro hv
    unfold switchRecurrenceType
    show (if v = .noneR
      then { { fd with recurrenceType := v } with rRule := none }
      else { fd with recurrenceType := v }) = { fd with recurrenceType := v }
    rw [if_neg hv]
  · intro h
    subst h
    rfl
  · intro h
    unfold freqChangeWeekdays
    rw [if_neg h]

theorem claim_C8_switch_clears_amended_witness :
    (switchRecurrenceType fdMonthly .noneR).rRule = none ∧
    switchRecurrenceType fdMonthly .weekly
      = { fdMonthly with recurrenceType := .weekly } ∧
    freqChangeWeekdays .weekly = [0] ∧
    freqChangeWeekdays .daily = [] :=
  ⟨(claim_C8_switch_clears_amended fdMonthly .weekly .daily).1,
   (claim_C8_switch_clears_amended fdMonthly .weekly .daily).2.1 (by decide),
   (claim_C8_switch_clears_amended fdMonthly .weekly .weekly).2.2.1 rfl,
   (claim_C8_switch_clears_amended fdMonthly .weekly .daily).2.2.2 (by decide)⟩

end JustClimb
